import Mathlib

/-!
Shallow embedding of the Nero chain's core block-processing logic:
the state transition processor (core/blockchain_writer.go), the governance
proposal settlement (consensus/turbo, processProposalTx and friends) and the
access-filter layer (consensus/turbo/turbo_access.go).

Bytes are `Nat` values below 256, byte strings are `List Nat`.  Addresses and
hashes are `Nat` where only their identity matters; 32-byte log topics are
kept as explicit byte lists.  Go machine integers are `Nat` with explicit
`% 2 ^ w` at the points where the source converts or truncates.  Go maps are
association lists whose insert prepends, so lookup returns the newest binding,
matching map assignment.  External capabilities (EVM calls, the governance
contract read/write surface, signing) are oracle fields of environment
records, and calls to them are recorded in an explicit event trace.
-/

namespace Nero

/-! ### Byte-string utilities -/

/-- Big-endian interpretation of a byte string. -/
def bytesToNat (bs : List Nat) : Nat :=
  bs.foldl (fun acc b => acc * 256 + b) 0

/-- Fixed-width big-endian bytes of `n` (low `w` bytes, mirroring Go's
conversions that keep only the low bits). -/
def beBytes : Nat → Nat → List Nat
  | 0, _ => []
  | w + 1, n => beBytes w (n / 256) ++ [n % 256]

/-- `common.BigToHash`: the low 256 bits of a big integer as a 32-byte word. -/
def beWord (n : Nat) : List Nat := beBytes 32 n

/-- Minimal big-endian bytes of `n` (`big.Int.Bytes`); fuel-structural so that
it reduces definitionally.  Fuel `n` bounds the number of base-256 digits. -/
def minBEAux : Nat → Nat → List Nat
  | 0, _ => []
  | fuel + 1, n => if n = 0 then [] else minBEAux fuel (n / 256) ++ [n % 256]

/-- Minimal big-endian byte string of a natural number; `0` encodes to `[]`. -/
def minBE (n : Nat) : List Nat := minBEAux n n

/-- `common.BytesToHash`: left-pad to 32 bytes, cropping to the last 32 bytes
when longer. -/
def bytesToHashBytes (bs : List Nat) : List Nat :=
  let b := bs.drop (bs.length - 32)
  List.replicate (32 - b.length) 0 ++ b

/-- `common.BytesToAddress` applied to a topic: keep the last 20 bytes. -/
def bytesToAddress (bs : List Nat) : Nat :=
  bytesToNat (bs.drop (bs.length - 20))

/-- A 20-byte address rendered as a 32-byte topic
(`common.BytesToHash(addr[:])`). -/
def addrTopic (a : Nat) : List Nat :=
  bytesToHashBytes (beBytes 20 a)

/-- Go's `copy(dst[off:off+w], src)`: writes `min w src.length` bytes of `src`
at offset `off` (all call sites below have `off + w ≤ dst.length`). -/
def goCopy (dst src : List Nat) (off w : Nat) : List Nat :=
  let k := min w src.length
  dst.take off ++ src.take k ++ dst.drop (off + k)

/-! ### RLP encoding (package rlp), specialised to the Proposal struct -/

/-- RLP string encoding of a byte string. -/
def rlpEncBytes (bs : List Nat) : List Nat :=
  if bs.length = 1 ∧ bs.headD 0 < 0x80 then bs
  else if bs.length < 56 then (0x80 + bs.length) :: bs
  else
    let lb := minBE bs.length
    (0xb7 + lb.length) :: (lb ++ bs)

/-- RLP encoding of a non-negative `big.Int`: minimal big-endian bytes. -/
def rlpEncNat (n : Nat) : List Nat := rlpEncBytes (minBE n)

/-- RLP encoding of a `common.Address` (a fixed 20-byte array). -/
def rlpEncAddress (a : Nat) : List Nat := rlpEncBytes (beBytes 20 a)

/-- RLP list framing around an already-encoded payload. -/
def rlpListEnc (payload : List Nat) : List Nat :=
  if payload.length < 56 then (0xc0 + payload.length) :: payload
  else
    let lb := minBE payload.length
    (0xf7 + lb.length) :: (lb ++ payload)

/-! ### Proposals and logs -/

/-- `systemcontract.Proposal{Id, Action, From, To, Value, Data}`
(consensus/turbo/systemcontract/contract.go).  The big-integer fields are
unsigned words read from the governance contract. -/
structure Proposal where
  Id : Nat
  Action : Nat
  From : Nat
  To : Nat
  Value : Nat
  Data : List Nat
  deriving DecidableEq, Repr

/-- `rlp.EncodeToBytes(prop)` for the Proposal struct: the RLP list of its
fields in declaration order.  Encoding a well-formed struct never fails in Go,
so the model is total. -/
def rlpEncodeProposal (p : Proposal) : List Nat :=
  rlpListEnc (rlpEncNat p.Id ++ rlpEncNat p.Action ++ rlpEncAddress p.From ++
    rlpEncAddress p.To ++ rlpEncNat p.Value ++ rlpEncBytes p.Data)

/-- `types.Log`, restricted to the fields the embedded code reads or writes. -/
structure LogEntry where
  address : Nat
  topics : List (List Nat)
  data : List Nat
  blockNumber : Nat
  deriving DecidableEq, Repr

/-- Block header fields used by the embedded code. -/
structure Header where
  coinbase : Nat
  number : Nat
  gasLimit : Nat
  gasUsed : Nat
  hash : Nat
  parentHash : Nat
  deriving DecidableEq, Repr

/-- Association-list lookup standing in for Go map indexing: the most recent
binding wins. -/
def alookup {β : Type} : List (Nat × β) → Nat → Option β
  | [], _ => none
  | (k, v) :: rest, a => if k = a then some v else alookup rest a

/-! ### Access filter (consensus/turbo/turbo_access.go) -/

inductive AccessDirection where
  | DirectionFrom
  | DirectionTo
  | DirectionBoth
  deriving DecidableEq, Repr

/-- Modelled from the spec: `common.AddressCheckType` is declared outside the
provided sources (package common).  The spec lists the check kinds
none/checkFrom/checkTo/checkBothInAny; the type is a small unsigned integer,
so unsupported values are every `Nat` other than the three checked ones. -/
def CheckNone : Nat := 0

/-- `common.CheckFrom` (see `CheckNone` for provenance). -/
def CheckFrom : Nat := 1

/-- `common.CheckTo` (see `CheckNone` for provenance). -/
def CheckTo : Nat := 2

/-- `common.CheckBothInAny` (see `CheckNone` for provenance). -/
def CheckBothInAny : Nat := 3

/-- `EventCheckRule`: event signature plus the checked topic indices.  The Go
`Checks` field is a `map[int]common.AddressCheckType` whose keys are produced
by `getEventCheckRules` as `int(index.Int64())` from the contract read, so
negative keys are representable; it is modelled as an association list of
`Int` keys (Go map iteration order is arbitrary; the list fixes one order,
and the properties proved below are stated so as not to depend on it). -/
structure EventCheckRule where
  EventSig : List Nat
  Checks : List (Int × Nat)
  deriving DecidableEq, Repr

/-- `turboAccessFilter`: the per-block snapshot of denied addresses and event
check rules. -/
structure TurboAccessFilter where
  accesses : List (Nat × AccessDirection)
  rules : List (List Nat × EventCheckRule)
  deriving DecidableEq, Repr

/-- Lookup in the rules map (keys are 32-byte event signatures). -/
def rlookup : List (List Nat × EventCheckRule) → List Nat → Option EventCheckRule
  | [], _ => none
  | (k, v) :: rest, a => if k = a then some v else rlookup rest a

/-- `turboAccessFilter.IsAddressDenied`: the switch on the check type, with the
default branch (any unsupported value) logging a warning and not denying. -/
def IsAddressDenied (b : TurboAccessFilter) (address : Nat) (cType : Nat) : Bool :=
  match alookup b.accesses address with
  | none => false
  | some d =>
    if cType = CheckFrom then decide (d ≠ AccessDirection.DirectionTo)
    else if cType = CheckTo then decide (d ≠ AccessDirection.DirectionFrom)
    else if cType = CheckBothInAny then true
    else false

/-- The `for idx, checkType := range rule.Checks` loop body of `IsLogDenied`:
the source's only bounds check is `idx >= len(evLog.Topics)` (`continue`); a
negative `idx` passes it and `evLog.Topics[idx]` then panics — modelled as
`none`.  `some true` is the early `return true` on a denied address. -/
def isLogDeniedLoop (b : TurboAccessFilter) (l : LogEntry) :
    List (Int × Nat) → Option Bool
  | [] => some false
  | ic :: rest =>
    if (l.topics.length : Int) ≤ ic.1 then isLogDeniedLoop b l rest
    else if ic.1 < 0 then none
    else if IsAddressDenied b (bytesToAddress (l.topics.getD ic.1.toNat [])) ic.2 then
      some true
    else isLogDeniedLoop b l rest

/-- `turboAccessFilter.IsLogDenied`.  A nil log is `none`; the result is
`Option Bool`, where `none` models the runtime panic of `evLog.Topics[idx]`
on a negative check index (see `isLogDeniedLoop`). -/
def IsLogDenied (b : TurboAccessFilter) (evLog : Option LogEntry) : Option Bool :=
  match evLog with
  | none => some false
  | some l =>
    if l.topics.length ≤ 1 then some false
    else
      match rlookup b.rules (l.topics.headD []) with
      | none => some false
      | some rule => isLogDeniedLoop b l rule.Checks

/-! ### Access-list cache (Turbo.getAccessList) -/

/-- Contract-read calls observable from `getAccessList`. -/
inductive AccEv where
  | blacksFromCall
  | blacksToCall
  deriving DecidableEq, Repr

/-- Environment of `getAccessList`: the LRU cache contents, the chain header
reader, the AddressList contract's last-black-updated number read from the
parent state, and the two contract read methods as oracles. -/
structure AccessEnv where
  cache : List (Nat × List (Nat × AccessDirection))
  getHeader : Nat → Nat → Option Header
  lastBlackUpdated : Nat
  blacksFrom : Except Nat (List Nat)
  blacksTo : Except Nat (List Nat)

/-- Result of `getAccessList`: the returned map or error, the cache after the
call, and the contract calls that were made. -/
structure AccessOut where
  result : Except Nat (List (Nat × AccessDirection))
  cache : List (Nat × List (Nat × AccessDirection))
  calls : List AccEv
  deriving Repr

/-- The merge of `getBlacksFrom`/`getBlacksTo` into the direction map:
from-entries first, then to-entries, upgrading an existing entry to
`DirectionBoth`. -/
def mergeAccessList (froms tos : List Nat) : List (Nat × AccessDirection) :=
  let m := froms.foldl (fun m a => (a, AccessDirection.DirectionFrom) :: m) []
  tos.foldl
    (fun m a =>
      if (alookup m a).isSome then (a, AccessDirection.DirectionBoth) :: m
      else (a, AccessDirection.DirectionTo) :: m)
    m

/-- `Turbo.getAccessList`.  The lock-protected double check collapses to a
single cache probe in this sequential model; `c.accesslist.Add` prepends.
`num` is `header.Number.Uint64()` and `LastBlackUpdatedNumber` returns a
`uint64`, so both are reduced modulo `2^64` and the source's comparison
`num > lastUpdated+1` uses the wrapping 64-bit sum (`lastUpdated = 2^64-1`
wraps to `0`).  On a contract-read error nothing is cached and the error is
returned. -/
def getAccessList (env : AccessEnv) (header : Header) : AccessOut :=
  match alookup env.cache header.parentHash with
  | some m => ⟨.ok m, env.cache, []⟩
  | none =>
    let contractPath : AccessOut :=
      match env.blacksFrom with
      | .error e => ⟨.error e, env.cache, [AccEv.blacksFromCall]⟩
      | .ok froms =>
        match env.blacksTo with
        | .error e => ⟨.error e, env.cache, [AccEv.blacksFromCall, AccEv.blacksToCall]⟩
        | .ok tos =>
          let m := mergeAccessList froms tos
          ⟨.ok m, (header.parentHash, m) :: env.cache,
            [AccEv.blacksFromCall, AccEv.blacksToCall]⟩
    let num := header.number % 2 ^ 64
    let lastUpdated := env.lastBlackUpdated % 2 ^ 64
    if 2 ≤ num ∧ (lastUpdated + 1) % 2 ^ 64 < num then
      match env.getHeader header.parentHash (num - 1) with
      | some parent =>
        match alookup env.cache parent.parentHash with
        | some m => ⟨.ok m, (header.parentHash, m) :: env.cache, []⟩
        | none => contractPath
      | none => contractPath
    else contractPath

/-! ### Governance proposal settlement (consensus/turbo, processProposalTx) -/

/-- Errors of the proposal settlement path.  The named constructors are the
errors raised directly by the embedded code; `contractErr` stands for opaque
errors surfaced by the contract/signing oracles. -/
inductive GovErr where
  | invalidProposalCount
  | senderRecoveryFailed
  | invalidSender
  | dataMissmatch
  | signTxFnNotSet
  | contractErr (code : Nat)
  deriving DecidableEq, Repr

/-- `types.Transaction` restricted to what the proposal path reads.  `sender`
is the outcome of `types.Sender(c.signer, tx)` — `none` models a recovery
error, which is a property of the carried signature. -/
structure GovTx where
  nonce : Nat
  toAddr : Option Nat
  value : Nat
  gas : Nat
  gasPrice : Nat
  data : List Nat
  hash : Nat
  sender : Option Nat
  deriving DecidableEq, Repr

/-- Default transaction used only for the (provably unreachable) out-of-range
index case of `proposalTxs[int(i)]`. -/
def defaultGovTx : GovTx :=
  ⟨0, none, 0, 0, 0, [], 0, none⟩

/-- Observable events of the proposal settlement: contract reads/writes, the
EVM dispatch, code erasure and the audit-log emission. -/
inductive GovEv where
  | getCount
  | getProposal (i : Nat)
  | execEvm (p : Proposal)
  | eraseCode (a : Nat)
  | addLogEv
  | finish (id : Nat)
  deriving DecidableEq, Repr

/-- The slice of `state.StateDB` the proposal path touches: the current
transaction context, per-transaction logs, and account nonces, plus the event
trace. -/
structure GState where
  curTxHash : Nat
  curTxIndex : Nat
  logsByTx : List (Nat × List LogEntry)
  nonces : List (Nat × Nat)
  trace : List GovEv
  deriving DecidableEq, Repr

def getNonce (s : GState) (a : Nat) : Nat := (alookup s.nonces a).getD 0

def setNonce (s : GState) (a v : Nat) : GState := {s with nonces := (a, v) :: s.nonces}

/-- `state.SetTxContext(thash, ti)`. -/
def setTxContext (s : GState) (th idx : Nat) : GState :=
  {s with curTxHash := th, curTxIndex := idx}

def addLogList (m : List (Nat × List LogEntry)) (th : Nat) (l : LogEntry) :
    List (Nat × List LogEntry) :=
  match alookup m th with
  | some ls => (th, ls ++ [l]) :: m
  | none => (th, [l]) :: m

/-- `state.AddLog`: append under the current transaction hash. -/
def stAddLog (s : GState) (l : LogEntry) : GState :=
  {s with logsByTx := addLogList s.logsByTx s.curTxHash l}

/-- `state.GetLogs(thash, ...)`. -/
def getLogs (s : GState) (th : Nat) : List LogEntry := (alookup s.logsByTx th).getD []

/-- Record one observable event in the trace. -/
def traceEv (s : GState) (e : GovEv) : GState := {s with trace := s.trace ++ [e]}

/-- The governance contract surface and EVM effects, as oracles.
`executeProposalResult`/`executeProposalLogs` model
`systemcontract.ExecuteProposal` (its error and the logs the call emits under
the current transaction context); `eraseResult` models `state.Erase`. -/
structure GovEnv where
  getPassedProposalCount : Except GovErr Nat
  getPassedProposalByIndex : Nat → Except GovErr Proposal
  finishProposalByIdResult : Nat → Option GovErr
  executeProposalResult : Proposal → Option GovErr
  executeProposalLogs : Proposal → List LogEntry
  eraseResult : Nat → Bool

/-- The engine-side ambient state `processProposalTx` consults: the validator
address and the optional transaction-signing capability. -/
structure TurboCfg where
  validator : Nat
  signTxFn : Option (GovTx → Except GovErr GovTx)

def receiptStatusFailed : Nat := 0

def receiptStatusSuccessful : Nat := 1

/-- `types.Receipt` restricted to the fields `executeProposalMsg` populates
(the bloom is a pure function of `logs` and is not re-modelled). -/
structure GovReceipt where
  status : Nat
  cumulativeGasUsed : Nat
  logs : List LogEntry
  txHash : Nat
  blockHash : Nat
  blockNumber : Nat
  transactionIndex : Nat
  deriving DecidableEq, Repr

/-- The fixed proposal marker address `0x…FFFF`. -/
def proposalTxMark : Nat := 0xFFFF

/-- Keccak hash of `ProposalExecuted(address,address,uint256,uint256,uint256,bytes)`. -/
def proposalExecutedEventSig : List Nat :=
  beWord 0xce6004e6e4497b8f4978e17f771f74179bea0aeb34ed808a76f26ae79f23c541

/-- `buildProposalExecutedEventData`: a zeroed buffer of
`4*32 + ceil(len/32)*32` bytes filled by the five `copy` calls of the source. -/
def buildProposalExecutedEventData (prop : Proposal) : List Nat :=
  let propDataLen := ((prop.Data.length + 32 - 1) / 32) * 32
  let dataLen := 4 * 32 + propDataLen
  let d0 := List.replicate dataLen 0
  let d1 := goCopy d0 (beWord prop.Id) 0 32
  let d2 := goCopy d1 (beWord prop.Action) 32 32
  let d3 := goCopy d2 (bytesToHashBytes [0x60]) 64 32
  let d4 := goCopy d3 (beWord prop.Data.length) 96 32
  goCopy d4 prop.Data 128 (dataLen - 128)

/-- The audit log emitted at the marker address before the action dispatch. -/
def markerLog (header : Header) (prop : Proposal) : LogEntry :=
  { address := proposalTxMark
    topics := [proposalExecutedEventSig, addrTopic prop.From, addrTopic prop.To,
      beWord prop.Value]
    data := buildProposalExecutedEventData prop
    blockNumber := header.number }

/-- `Turbo.executeProposalMsg`.  `action` is `prop.Action.Uint64()`, i.e. the
low 64 bits.  The function is total: it always returns a receipt. -/
def executeProposalMsg (env : GovEnv) (header : Header) (s : GState) (prop : Proposal)
    (totalTxIndex : Nat) (txHash bHash : Nat) : GState × GovReceipt :=
  let action := prop.Action % 2 ^ 64
  let s := setTxContext s txHash totalTxIndex
  let s1 := stAddLog s (markerLog header prop)
  let s2 := traceEv s1 GovEv.addLogEv
  let dispatched : GState × Bool :=
    if action = 0 then
      let s3 := traceEv s2 (GovEv.execEvm prop)
      let s4 := (env.executeProposalLogs prop).foldl stAddLog s3
      (s4, (env.executeProposalResult prop).isSome)
    else if action = 1 then
      let s3 := traceEv s2 (GovEv.eraseCode prop.To)
      (s3, !env.eraseResult prop.To)
    else
      (s2, true)
  let receipt : GovReceipt :=
    { status := if dispatched.2 then receiptStatusFailed else receiptStatusSuccessful
      cumulativeGasUsed := header.gasUsed
      logs := getLogs dispatched.1 txHash
      txHash := txHash
      blockHash := bHash
      blockNumber := header.number
      transactionIndex := dispatched.1.curTxIndex }
  (dispatched.1, receipt)

/-- `Turbo.replayProposal`: sender recovery, the coinbase check, the
byte-for-byte RLP comparison, then nonce bump and execution against the
header's own hash as block hash. -/
def replayProposal (env : GovEnv) (header : Header) (s : GState) (prop : Proposal)
    (totalTxIndex : Nat) (tx : GovTx) : Except GovErr (GState × GovReceipt) :=
  match tx.sender with
  | none => .error GovErr.senderRecoveryFailed
  | some sender =>
    if sender ≠ header.coinbase then .error GovErr.invalidSender
    else if rlpEncodeProposal prop ≠ tx.data then .error GovErr.dataMissmatch
    else
      let s := setNonce s sender (getNonce s sender + 1)
      .ok (executeProposalMsg env header s prop totalTxIndex tx.hash header.hash)

/-- `Turbo.executeProposal` (the mining path): requires the signing
capability, builds and signs the marker transaction, bumps the validator
nonce, and executes against the empty block hash. -/
def executeProposal (cfg : TurboCfg) (env : GovEnv) (header : Header) (s : GState)
    (prop : Proposal) (totalTxIndex : Nat) : Except GovErr (GState × GovTx × GovReceipt) :=
  match cfg.signTxFn with
  | none => .error GovErr.signTxFnNotSet
  | some signTx =>
    let propRLP := rlpEncodeProposal prop
    let nonce := getNonce s cfg.validator
    let tx : GovTx :=
      { nonce := nonce, toAddr := some proposalTxMark, value := 0, gas := header.gasLimit
        gasPrice := 0, data := propRLP, hash := 0, sender := none }
    match signTx tx with
    | .error e => .error e
    | .ok tx2 =>
      let s := setNonce s cfg.validator (nonce + 1)
      let out := executeProposalMsg env header s prop totalTxIndex tx2.hash 0
      .ok (out.1, tx2, out.2)

/-- Outcome of `processProposalTx`: the returned error (if any) and the
transaction/receipt lists and state as mutated in place (partial appends
survive an abort, as with the Go slices behind the pointers). -/
structure GovOut where
  result : Option GovErr
  txs : List GovTx
  receipts : List GovReceipt
  state : GState
  deriving Repr

/-- The finishing pass: `finishProposalById` for each recorded Id, aborting on
the first error. -/
def govFinishLoop (env : GovEnv) : List Nat → List GovTx → List GovReceipt → GState → GovOut
  | [], txs, receipts, s => ⟨none, txs, receipts, s⟩
  | id :: rest, txs, receipts, s =>
    let s := traceEv s (GovEv.finish id)
    match env.finishProposalByIdResult id with
    | some e => ⟨some e, txs, receipts, s⟩
    | none => govFinishLoop env rest txs receipts s

/-- The execution pass over proposal indices, then the finishing pass.  On
replay the transaction comes from `proposalTxs[int(i)]` (in range whenever the
count check passed; `defaultGovTx` is never reached). -/
def govLoop (cfg : TurboCfg) (env : GovEnv) (header : Header) (mined : Bool)
    (proposalTxs : List GovTx) :
    List Nat → List GovTx → List GovReceipt → List Nat → GState → GovOut
  | [], txs, receipts, pIds, s => govFinishLoop env pIds txs receipts s
  | i :: rest, txs, receipts, pIds, s =>
    let s := traceEv s (GovEv.getProposal i)
    match env.getPassedProposalByIndex i with
    | .error e => ⟨some e, txs, receipts, s⟩
    | .ok prop =>
      if mined = false then
        let tx := proposalTxs.getD i defaultGovTx
        match replayProposal env header s prop txs.length tx with
        | .error e => ⟨some e, txs, receipts, s⟩
        | .ok (s2, receipt) =>
          govLoop cfg env header mined proposalTxs rest (txs ++ [tx])
            (receipts ++ [receipt]) (pIds ++ [prop.Id]) s2
      else
        match executeProposal cfg env header s prop txs.length with
        | .error e => ⟨some e, txs, receipts, s⟩
        | .ok (s2, tx, receipt) =>
          govLoop cfg env header mined proposalTxs rest (txs ++ [tx])
            (receipts ++ [receipt]) (pIds ++ [prop.Id]) s2

/-- `Turbo.processProposalTx`.  The unauthorized-mining skip, the count read,
the uint32 count comparison (`uint32(len(proposalTxs))`), then the two
passes. -/
def processProposalTx (cfg : TurboCfg) (env : GovEnv) (header : Header) (mined : Bool)
    (txs0 : List GovTx) (receipts0 : List GovReceipt) (proposalTxs : List GovTx)
    (s0 : GState) : GovOut :=
  if mined = true ∧ cfg.signTxFn.isNone = true then ⟨none, txs0, receipts0, s0⟩
  else
    let s1 := traceEv s0 GovEv.getCount
    match env.getPassedProposalCount with
    | .error e => ⟨some e, txs0, receipts0, s1⟩
    | .ok c =>
      let proposalCount := c % 2 ^ 32
      if mined = false ∧ proposalCount ≠ proposalTxs.length % 2 ^ 32 then
        ⟨some GovErr.invalidProposalCount, txs0, receipts0, s1⟩
      else
        govLoop cfg env header mined proposalTxs (List.range proposalCount)
          txs0 receipts0 [] s1

/-- State-independent summary of `replayProposal`'s validation outcome: the
error it raises, or `none` when the checks pass (after which it always
succeeds, since `executeProposalMsg` is total). -/
def replayCheck (header : Header) (prop : Proposal) (tx : GovTx) : Option GovErr :=
  match tx.sender with
  | none => some GovErr.senderRecoveryFailed
  | some sender =>
    if sender ≠ header.coinbase then some GovErr.invalidSender
    else if rlpEncodeProposal prop ≠ tx.data then some GovErr.dataMissmatch
    else none

/-- Trace events contributed by one `executeProposalMsg` call. -/
def execEvents (prop : Proposal) : List GovEv :=
  GovEv.addLogEv ::
    (if prop.Action % 2 ^ 64 = 0 then [GovEv.execEvm prop]
     else if prop.Action % 2 ^ 64 = 1 then [GovEv.eraseCode prop.To]
     else [])

/-- Logs appended by the dispatched action itself (action 0 runs the EVM). -/
def dispatchLogs (env : GovEnv) (prop : Proposal) : List LogEntry :=
  if prop.Action % 2 ^ 64 = 0 then env.executeProposalLogs prop else []

/-! ### State transition processor (core/blockchain_writer.go, Process) -/

/-- Modelled from the spec: `consensus.FeeRecoder`, the fee-recording
preserved address, is declared outside the provided sources.  Only its
identity matters; the concrete value is opaque. -/
def FeeRecoder : Nat := 0xFEE0

/-- `PreservedAddress`: the set of system preserved addresses. -/
def PreservedAddress : List Nat := [FeeRecoder]

/-- `IsPreserved`: a nil recipient (contract creation) is never preserved. -/
def IsPreserved (address : Option Nat) : Bool :=
  match address with
  | none => false
  | some a => PreservedAddress.contains a

/-- A transaction as seen by `Process`: its identity (hash), recipient, and
the outcome of `types.Sender(signer, tx)` (`none` models a recovery error). -/
structure PTx where
  tid : Nat
  toAddr : Option Nat
  sender : Option Nat
  deriving DecidableEq, Repr

/-- Default transaction for positional access in statements. -/
def defaultPTx : PTx := ⟨0, none, none⟩

/-- Receipts of ordinary transactions are opaque to these claims. -/
abbrev PReceipt := Nat

/-- Errors of `Process`.  `oracle` carries errors returned by the engine
hooks; `applyWrap` is the `could not apply tx %d [%v]` wrapping of message
construction / EVM application errors. -/
inductive PErr where
  | preserved (i : Nat) (tid : Nat)
  | senderRecovery (tid : Nat)
  | oracle (code : Nat)
  | applyWrap (i : Nat) (tid : Nat) (code : Nat)
  | withdrawalsBeforeShanghai
  deriving DecidableEq, Repr

/-- Observable calls of the processing loop. -/
inductive PEv where
  | filterTxCall (t : PTx)
  | applyCall (t : PTx)
  | finalizeCall (commonTxs : List PTx) (receipts : List PReceipt) (punishTxs : List PTx)
  deriving DecidableEq, Repr

/-- The consensus-engine hooks and the EVM application, as oracles.
`applyTx` bundles `TransactionToMessage` and `ApplyTransactionWithEVM`
(both failure kinds are wrapped identically by the source). -/
structure PEngine where
  preHandle : Option PErr
  extraValidate : Nat → PTx → Option PErr
  isDoubleSignPunish : Nat → PTx → Bool
  filterTx : Nat → PTx → Option PErr
  applyTx : PTx → Except Nat PReceipt
  finalize : List PTx → List PReceipt → List PTx → Option PErr

/-- Outcome of `Process`: the error (if any; Go then returns nil receipts),
and the loop's accumulated receipts, ordinary transactions, punishment
transactions and call trace. -/
structure ProcOut where
  result : Option PErr
  receipts : List PReceipt
  commonTxs : List PTx
  punishTxs : List PTx
  trace : List PEv
  deriving DecidableEq, Repr

/-- The per-transaction loop of `StateProcessor.Process`: preserved-recipient
check, then (when the engine is a turbo engine) sender recovery, extra
validation, double-sign punishment classification with `continue`, and the
access filter, then message application. -/
def processLoop (eng : PEngine) (isTurbo : Bool) :
    List PTx → Nat → List PReceipt → List PTx → List PTx → List PEv → ProcOut
  | [], _, receipts, common, punish, trace => ⟨none, receipts, common, punish, trace⟩
  | t :: rest, i, receipts, common, punish, trace =>
    if IsPreserved t.toAddr then
      ⟨some (PErr.preserved i t.tid), receipts, common, punish, trace⟩
    else if isTurbo then
      match t.sender with
      | none => ⟨some (PErr.senderRecovery t.tid), receipts, common, punish, trace⟩
      | some sender =>
        match eng.extraValidate sender t with
        | some e => ⟨some e, receipts, common, punish, trace⟩
        | none =>
          if eng.isDoubleSignPunish sender t then
            processLoop eng isTurbo rest (i + 1) receipts common (punish ++ [t]) trace
          else
            let trace := trace ++ [PEv.filterTxCall t]
            match eng.filterTx sender t with
            | some e => ⟨some e, receipts, common, punish, trace⟩
            | none =>
              let trace := trace ++ [PEv.applyCall t]
              match eng.applyTx t with
              | .error c => ⟨some (PErr.applyWrap i t.tid c), receipts, common, punish, trace⟩
              | .ok r =>
                processLoop eng isTurbo rest (i + 1) (receipts ++ [r]) (common ++ [t])
                  punish trace
    else
      let trace := trace ++ [PEv.applyCall t]
      match eng.applyTx t with
      | .error c => ⟨some (PErr.applyWrap i t.tid c), receipts, common, punish, trace⟩
      | .ok r =>
        processLoop eng isTurbo rest (i + 1) (receipts ++ [r]) (common ++ [t]) punish trace

/-- `StateProcessor.Process`: turbo pre-handling, the transaction loop, the
withdrawals-before-Shanghai check, and engine finalization receiving the
ordinary and punishment transaction lists separately. -/
def Process (eng : PEngine) (isTurbo : Bool) (txs : List PTx)
    (withdrawalsPresent shanghai : Bool) : ProcOut :=
  let core : ProcOut :=
    let out := processLoop eng isTurbo txs 0 [] [] [] []
    match out.result with
    | some _ => out
    | none =>
      if withdrawalsPresent = true ∧ shanghai = false then
        {out with result := some PErr.withdrawalsBeforeShanghai}
      else
        let trace := out.trace ++
          [PEv.finalizeCall out.commonTxs out.receipts out.punishTxs]
        match eng.finalize out.commonTxs out.receipts out.punishTxs with
        | some e => {out with result := some e, trace := trace}
        | none => {out with trace := trace}
  if isTurbo then
    match eng.preHandle with
    | some e => ⟨some e, [], [], [], []⟩
    | none => core
  else core

/-- The caller-visible return of `Process`: every error path of the Go
function returns nil receipts. -/
def ProcessResult (eng : PEngine) (isTurbo : Bool) (txs : List PTx)
    (withdrawalsPresent shanghai : Bool) : Except PErr (List PReceipt) :=
  let out := Process eng isTurbo txs withdrawalsPresent shanghai
  match out.result with
  | some e => .error e
  | none => .ok out.receipts

/-- Whether `Process` classifies a transaction as a double-sign punishment
transaction (possible only when its sender recovers). -/
def dspClassified (eng : PEngine) (t : PTx) : Bool :=
  match t.sender with
  | some s => eng.isDoubleSignPunish s t
  | none => false

/-- Whether one loop iteration runs to its end (or punish-skips) without
returning an error; used to phrase which transaction fails first. -/
def pstepOk (eng : PEngine) (isTurbo : Bool) (t : PTx) : Bool :=
  !IsPreserved t.toAddr &&
    (if isTurbo then
      match t.sender with
      | none => false
      | some s =>
        (eng.extraValidate s t).isNone &&
          (eng.isDoubleSignPunish s t ||
            ((eng.filterTx s t).isNone && (eng.applyTx t).toBool))
    else (eng.applyTx t).toBool)

/-! ### Derived notions used in statements -/

/-- Right-padded length to a 32-byte multiple. -/
def pad32 (n : Nat) : Nat := ((n + 32 - 1) / 32) * 32

/-- Whether a `Process` outcome is the preserved-address error. -/
def isPreservedErr : Option PErr → Bool
  | some (PErr.preserved _ _) => true
  | _ => false

/-- The proposal the environment returns for an index (default irrelevant:
used only where the read is known to succeed). -/
def propAt (env : GovEnv) (i : Nat) : Proposal :=
  (env.getPassedProposalByIndex i).toOption.getD ⟨0, 0, 0, 0, 0, []⟩

/-- Replay validation summary for the whole block: index `i` was read
successfully and the replayed transaction passes the sender and payload
checks. -/
def replayStepOk (env : GovEnv) (header : Header) (proposalTxs : List GovTx)
    (i : Nat) : Prop :=
  ∃ p, env.getPassedProposalByIndex i = .ok p ∧
    replayCheck header p (proposalTxs.getD i defaultGovTx) = none

/-! ### Concrete fixtures for witnesses and counterexamples -/

def wHeader : Header := ⟨7, 5, 30000000, 21000, 99, 98⟩

def wProp : Proposal := ⟨5, 0, 11, 12, 100, [1, 2, 3]⟩

def wPropErase : Proposal := ⟨7, 1, 11, 13, 0, []⟩

def wPropBigAction : Proposal := ⟨9, 2 ^ 64, 11, 12, 0, [4]⟩

def wTxFor (p : Proposal) : GovTx :=
  ⟨0, some proposalTxMark, 0, 30000000, 0, rlpEncodeProposal p, 1000 + p.Id, some 7⟩

def wGState : GState := ⟨0, 0, [], [], []⟩

def wGovEnv (count : Nat) (props : List Proposal) : GovEnv :=
  { getPassedProposalCount := .ok count
    getPassedProposalByIndex := fun i => .ok (props.getD i wProp)
    finishProposalByIdResult := fun _ => none
    executeProposalResult := fun _ => none
    executeProposalLogs := fun _ => []
    eraseResult := fun _ => true }

def wCfgNoSign : TurboCfg := ⟨7, none⟩

def wCfgSign : TurboCfg := ⟨7, some fun tx => .ok {tx with hash := 555, sender := some 7}⟩

def wEng : PEngine :=
  { preHandle := none
    extraValidate := fun _ _ => none
    isDoubleSignPunish := fun s _ => s == 42
    filterTx := fun _ _ => none
    applyTx := fun t => .ok t.tid
    finalize := fun _ _ _ => none }

def wTxPunish : PTx := ⟨100, some 8, some 42⟩

def wTxNormal : PTx := ⟨101, some 9, some 10⟩

def wTxBadSender : PTx := ⟨102, some 5, none⟩

def wTxPreserved : PTx := ⟨103, some FeeRecoder, some 10⟩

def wAccessMap : List (Nat × AccessDirection) := [(21, AccessDirection.DirectionFrom)]

def wParentHeader : Header := ⟨0, 1, 0, 0, 91, 90⟩

def wHeaderC9 : Header := ⟨0, 2, 0, 0, 92, 91⟩

def wAccessEnvReuse : AccessEnv :=
  { cache := [(90, wAccessMap)]
    getHeader := fun h n => if h = 91 ∧ n = 1 then some wParentHeader else none
    lastBlackUpdated := 0
    blacksFrom := .ok [1]
    blacksTo := .ok [2]
    }

def wAccessEnvMiss : AccessEnv :=
  { cache := []
    getHeader := fun _ _ => none
    lastBlackUpdated := 0
    blacksFrom := .ok [1, 3]
    blacksTo := .ok [2, 3]
    }

def wAccessEnvWrap : AccessEnv :=
  { wAccessEnvReuse with lastBlackUpdated := 2 ^ 64 - 1 }

def wSig : List Nat := beWord 0xabcdef

def wRule : EventCheckRule :=
  ⟨wSig, [((1 : Int), CheckFrom), ((9 : Int), CheckBothInAny)]⟩

def wFilter : TurboAccessFilter :=
  { accesses := [(5, AccessDirection.DirectionFrom), (6, AccessDirection.DirectionBoth)]
    rules := [(wSig, wRule)] }

def wRuleNeg : EventCheckRule := ⟨wSig, [((-1 : Int), CheckFrom)]⟩

def wFilterNeg : TurboAccessFilter :=
  { accesses := [(5, AccessDirection.DirectionFrom)]
    rules := [(wSig, wRuleNeg)] }

def wLog : LogEntry :=
  { address := 77, topics := [wSig, addrTopic 5], data := [], blockNumber := 3 }

/-! ## Theorems -/

/-! ### Byte-string lemmas -/

theorem beBytes_length (w n : Nat) : (beBytes w n).length = w := by
  induction w generalizing n with
  | zero => rfl
  | succ w ih => simp [beBytes, ih]

theorem beWord_length (n : Nat) : (beWord n).length = 32 := beBytes_length 32 n

/-! ### C6: IsAddressDenied -/

/-- Claim C6: `IsAddressDenied(addr, cType)` returns true iff the address is
in the access map and the stored direction is compatible with the check type
(`CheckFrom` hits unless the direction is `DirectionTo`, `CheckTo` hits unless
it is `DirectionFrom`, `CheckBothInAny` always hits); a `From` entry is denied
as sender but not as recipient, a `Both` entry is denied both ways, any
unsupported check type is never denied (fail open), and an absent address is
never denied. -/
theorem C6_isAddressDenied_characterization :
    ∀ (f : TurboAccessFilter) (a cType : Nat),
      (IsAddressDenied f a cType = true ↔
        ∃ d, alookup f.accesses a = some d ∧
          ((cType = CheckFrom ∧ d ≠ AccessDirection.DirectionTo) ∨
           (cType = CheckTo ∧ d ≠ AccessDirection.DirectionFrom) ∨
           cType = CheckBothInAny))
      ∧ (alookup f.accesses a = some AccessDirection.DirectionFrom →
          IsAddressDenied f a CheckTo = false ∧ IsAddressDenied f a CheckFrom = true)
      ∧ (alookup f.accesses a = some AccessDirection.DirectionBoth →
          IsAddressDenied f a CheckFrom = true ∧ IsAddressDenied f a CheckTo = true)
      ∧ (cType ≠ CheckFrom → cType ≠ CheckTo → cType ≠ CheckBothInAny →
          IsAddressDenied f a cType = false)
      ∧ (alookup f.accesses a = none → IsAddressDenied f a cType = false) := by
  intro f a cType
  cases h : alookup f.accesses a with
  | none =>
    refine ⟨?_, ?_, ?_, ?_, ?_⟩ <;> simp [IsAddressDenied, h, CheckFrom, CheckTo]
  | some d =>
    refine ⟨?_, ?_, ?_, ?_, ?_⟩
    · by_cases h1 : cType = CheckFrom <;> by_cases h2 : cType = CheckTo <;>
        by_cases h3 : cType = CheckBothInAny <;> cases d <;>
        simp_all [IsAddressDenied, CheckFrom, CheckTo, CheckBothInAny]
    · intro hd
      injection hd with hd
      subst hd
      simp [IsAddressDenied, h, CheckFrom, CheckTo]
    · intro hd
      injection hd with hd
      subst hd
      simp [IsAddressDenied, h, CheckFrom, CheckTo, CheckBothInAny]
    · intro h1 h2 h3
      simp [IsAddressDenied, h, h1, h2, h3]
    · intro hd
      exact absurd hd (by simp)

/-- Witness for C6 at a concrete filter holding address 5 with direction
`From`: `CheckTo` does not deny it, `CheckFrom` does. -/
theorem C6_isAddressDenied_characterization_witness :
    IsAddressDenied wFilter 5 CheckTo = false ∧ IsAddressDenied wFilter 5 CheckFrom = true :=
  (C6_isAddressDenied_characterization wFilter 5 CheckTo).2.1 (by decide)

/-! ### C10: IsLogDenied boundary behaviour -/

theorem isLogDeniedLoop_true_sound (b : TurboAccessFilter) (l : LogEntry) :
    ∀ cs : List (Int × Nat), isLogDeniedLoop b l cs = some true →
      ∃ ic ∈ cs, 0 ≤ ic.1 ∧ ic.1 < (l.topics.length : Int) ∧
        IsAddressDenied b (bytesToAddress (l.topics.getD ic.1.toNat [])) ic.2 = true := by
  intro cs
  induction cs with
  | nil =>
    intro h
    exact absurd h (by simp [isLogDeniedLoop])
  | cons ic rest ih =>
    intro h
    simp only [isLogDeniedLoop] at h
    split at h
    · obtain ⟨x, hmem, hrest⟩ := ih h
      exact ⟨x, List.mem_cons_of_mem _ hmem, hrest⟩
    · rename_i hskip
      split at h
      · exact absurd h (by simp)
      · rename_i hneg
        split at h
        · rename_i hden
          exact ⟨ic, List.mem_cons_self _ _, by omega, by omega, hden⟩
        · obtain ⟨x, hmem, hrest⟩ := ih h
          exact ⟨x, List.mem_cons_of_mem _ hmem, hrest⟩

theorem isLogDeniedLoop_nonneg (b : TurboAccessFilter) (l : LogEntry) :
    ∀ cs : List (Int × Nat), (∀ ic ∈ cs, 0 ≤ ic.1) →
      (isLogDeniedLoop b l cs).isSome = true ∧
        (isLogDeniedLoop b l cs = some true ↔
          ∃ ic ∈ cs, ic.1 < (l.topics.length : Int) ∧
            IsAddressDenied b (bytesToAddress (l.topics.getD ic.1.toNat [])) ic.2 = true) := by
  intro cs
  induction cs with
  | nil =>
    intro _
    refine ⟨rfl, ?_⟩
    simp [isLogDeniedLoop]
  | cons ic rest ih =>
    intro hnn
    have hic0 : 0 ≤ ic.1 := hnn ic (List.mem_cons_self _ _)
    have hrest : ∀ x ∈ rest, 0 ≤ x.1 := fun x hx => hnn x (List.mem_cons_of_mem _ hx)
    obtain ⟨ihs, ihiff⟩ := ih hrest
    simp only [isLogDeniedLoop]
    by_cases hskip : (l.topics.length : Int) ≤ ic.1
    · rw [if_pos hskip]
      refine ⟨ihs, ?_⟩
      rw [ihiff]
      constructor
      · rintro ⟨x, hx, hlt, hd⟩
        exact ⟨x, List.mem_cons_of_mem _ hx, hlt, hd⟩
      · rintro ⟨x, hx, hlt, hd⟩
        rcases List.mem_cons.mp hx with h1 | h2
        · rw [h1] at hlt
          exact absurd hlt (by omega)
        · exact ⟨x, h2, hlt, hd⟩
    · rw [if_neg hskip, if_neg (by omega)]
      by_cases hden :
          IsAddressDenied b (bytesToAddress (l.topics.getD ic.1.toNat [])) ic.2 = true
      · rw [if_pos hden]
        refine ⟨rfl, ?_⟩
        constructor
        · intro _
          exact ⟨ic, List.mem_cons_self _ _, by omega, hden⟩
        · intro _
          rfl
      · rw [if_neg hden]
        refine ⟨ihs, ?_⟩
        rw [ihiff]
        constructor
        · rintro ⟨x, hx, hlt, hd⟩
          exact ⟨x, List.mem_cons_of_mem _ hx, hlt, hd⟩
        · rintro ⟨x, hx, hlt, hd⟩
          rcases List.mem_cons.mp hx with h1 | h2
          · rw [h1] at hd
            exact absurd hd hden
          · exact ⟨x, h2, hlt, hd⟩

theorem isLogDeniedLoop_neg_head (b : TurboAccessFilter) (l : LogEntry)
    (ic : Int × Nat) (rest : List (Int × Nat)) (hneg : ic.1 < 0) :
    isLogDeniedLoop b l (ic :: rest) = none := by
  simp only [isLogDeniedLoop]
  rw [if_neg (by omega), if_pos hneg]

/-- Claim C10, amended: `IsLogDenied` returns (without error) false for a nil
log and for any log with fewer than two topics; a denial can only arise from
a rule check with a non-negative index within the log's topic range; for a
matched rule all of whose check indices are non-negative the function is
total (no panic) and the outcome is exactly the in-range-restricted check
disjunction — a check index at or beyond the topic count is skipped and can
neither deny nor fail.  However, check indices are `int(index.Int64())` and
may be negative, and a negative index passes the source's only bounds check
(`idx >= len(evLog.Topics)`) so that `evLog.Topics[idx]` panics: totality
fails there (modelled as `none`). -/
theorem C10_isLogDenied_fail_safe :
    ∀ (f : TurboAccessFilter) (l : LogEntry),
      IsLogDenied f none = some false
      ∧ (l.topics.length ≤ 1 → IsLogDenied f (some l) = some false)
      ∧ (IsLogDenied f (some l) = some true →
          ∃ rule, rlookup f.rules (l.topics.headD []) = some rule ∧
            ∃ ic ∈ rule.Checks, 0 ≤ ic.1 ∧ ic.1 < (l.topics.length : Int) ∧
              IsAddressDenied f (bytesToAddress (l.topics.getD ic.1.toNat [])) ic.2 = true)
      ∧ (∀ rule, rlookup f.rules (l.topics.headD []) = some rule →
          2 ≤ l.topics.length → (∀ ic ∈ rule.Checks, 0 ≤ ic.1) →
          (IsLogDenied f (some l)).isSome = true ∧
            (IsLogDenied f (some l) = some true ↔
              ∃ ic ∈ rule.Checks, ic.1 < (l.topics.length : Int) ∧
                IsAddressDenied f (bytesToAddress (l.topics.getD ic.1.toNat [])) ic.2 = true))
      ∧ (∀ rule ic rest, rlookup f.rules (l.topics.headD []) = some rule →
          2 ≤ l.topics.length → rule.Checks = ic :: rest → ic.1 < 0 →
          IsLogDenied f (some l) = none) := by
  intro f l
  refine ⟨rfl, ?_, ?_, ?_, ?_⟩
  · intro hlen
    simp [IsLogDenied, hlen]
  · intro hden
    by_cases hlen : l.topics.length ≤ 1
    · simp [IsLogDenied, hlen] at hden
    · rw [IsLogDenied] at hden
      simp only [if_neg hlen] at hden
      cases hr : rlookup f.rules (l.topics.headD []) with
      | none =>
        rw [hr] at hden
        simp at hden
      | some rule =>
        rw [hr] at hden
        obtain ⟨ic, hmem, h0, hlt, hd⟩ := isLogDeniedLoop_true_sound f l rule.Checks hden
        exact ⟨rule, rfl, ic, hmem, h0, hlt, hd⟩
  · intro rule hr hlen hnn
    have hlen1 : ¬ l.topics.length ≤ 1 := by omega
    rw [IsLogDenied]
    simp only [if_neg hlen1, hr]
    exact isLogDeniedLoop_nonneg f l rule.Checks hnn
  · intro rule ic rest hr hlen hcs hneg
    have hlen1 : ¬ l.topics.length ≤ 1 := by omega
    rw [IsLogDenied]
    simp only [if_neg hlen1, hr, hcs]
    exact isLogDeniedLoop_neg_head f l ic rest hneg

/-- Witness for C10 at a concrete filter whose rule has only non-negative
check indices and a concrete log: the function returns without a panic and
the denial is exactly the in-range check disjunction. -/
theorem C10_isLogDenied_fail_safe_witness :
    (IsLogDenied wFilter (some wLog)).isSome = true ∧
      (IsLogDenied wFilter (some wLog) = some true ↔
        ∃ ic ∈ wRule.Checks, ic.1 < (wLog.topics.length : Int) ∧
          IsAddressDenied wFilter (bytesToAddress (wLog.topics.getD ic.1.toNat []))
            ic.2 = true) :=
  (C10_isLogDenied_fail_safe wFilter wLog).2.2.2.1 wRule (by decide) (by decide)
    (by decide)

/-- Counterexample to C10 as stated: check indices come from the contract as
`int(index.Int64())` and may be negative; on a rule whose check index is `-1`
and a matching two-topic log, the index passes the source's only bounds check
and `evLog.Topics[-1]` panics — `IsLogDenied` is not total, contradicting the
claim's "it can neither deny the log nor cause an error" totality. -/
theorem C10_negative_index_panic_counterexample :
    rlookup wFilterNeg.rules (wLog.topics.headD []) = some wRuleNeg ∧
      2 ≤ wLog.topics.length ∧
      IsLogDenied wFilterNeg (some wLog) = none := by
  refine ⟨by decide, by decide, by decide⟩

/-! ### C9: access-list cache and merge -/

theorem alookup_cons {β : Type} (k : Nat) (v : β) (m : List (Nat × β)) (a : Nat) :
    alookup ((k, v) :: m) a = if k = a then some v else alookup m a := rfl

theorem mergeFrom_lookup (fs : List Nat) (m : List (Nat × AccessDirection)) (a : Nat) :
    alookup (fs.foldl (fun m x => (x, AccessDirection.DirectionFrom) :: m) m) a =
      if a ∈ fs then some AccessDirection.DirectionFrom else alookup m a := by
  induction fs generalizing m with
  | nil => simp
  | cons f fs ih =>
    rw [List.foldl_cons, ih]
    by_cases hfs : a ∈ fs
    · rw [if_pos hfs, if_pos (List.mem_cons_of_mem _ hfs)]
    · rw [if_neg hfs, alookup_cons]
      by_cases hfa : f = a
      · subst hfa
        rw [if_pos rfl, if_pos (List.mem_cons_self _ _)]
      · rw [if_neg hfa, if_neg ?hnm]
        case hnm =>
          intro hmem
          rcases List.mem_cons.mp hmem with h1 | h2
          · exact hfa h1.symm
          · exact hfs h2

theorem mergeTo_lookup (ts : List Nat) (m : List (Nat × AccessDirection)) (a : Nat)
    (hnd : ts.Nodup) :
    alookup
      (ts.foldl
        (fun m x =>
          if (alookup m x).isSome then (x, AccessDirection.DirectionBoth) :: m
          else (x, AccessDirection.DirectionTo) :: m)
        m) a =
      if a ∈ ts then
        some (if (alookup m a).isSome then AccessDirection.DirectionBoth
          else AccessDirection.DirectionTo)
      else alookup m a := by
  induction ts generalizing m with
  | nil => simp
  | cons t ts ih =>
    obtain ⟨hnotin, hnd2⟩ := List.nodup_cons.mp hnd
    rw [List.foldl_cons, ih _ hnd2]
    have hstep : ∀ b : Nat,
        alookup
          (if (alookup m t).isSome then (t, AccessDirection.DirectionBoth) :: m
            else (t, AccessDirection.DirectionTo) :: m) b =
          if t = b then
            some (if (alookup m t).isSome then AccessDirection.DirectionBoth
              else AccessDirection.DirectionTo)
          else alookup m b := by
      intro b
      by_cases hs : (alookup m t).isSome <;> simp [hs, alookup_cons]
    by_cases hts : a ∈ ts
    · have hat : ¬ t = a := fun hh => hnotin (hh ▸ hts)
      rw [if_pos hts, if_pos (List.mem_cons_of_mem _ hts), hstep, if_neg hat]
    · by_cases hat : t = a
      · subst hat
        rw [if_neg hts, hstep, if_pos rfl, if_pos (List.mem_cons_self _ _)]
      · rw [if_neg hts, hstep, if_neg hat, if_neg ?hnm]
        case hnm =>
          intro hmem
          rcases List.mem_cons.mp hmem with h1 | h2
          · exact hat h1.symm
          · exact hts h2

/-- The wrapping 64-bit boundary of the reuse condition: with the contract's
last-updated slot reading `2^64 - 1`, Go's `lastUpdated+1` wraps to `0`, the
condition `num > 0` holds, and the grandparent's cached entry is reused with
no contract call. -/
theorem getAccessList_wrap_reuse :
    wAccessEnvWrap.lastBlackUpdated % 2 ^ 64 = 2 ^ 64 - 1 ∧
      (getAccessList wAccessEnvWrap wHeaderC9).result = .ok wAccessMap ∧
      (getAccessList wAccessEnvWrap wHeaderC9).calls = [] := by
  refine ⟨by decide, rfl, rfl⟩

/-- Claim C9 (amended): on a cache miss for the parent hash, the code compares
`header.Number.Uint64()` against the contract's last-updated number in 64-bit
arithmetic: when `num ≥ 2` and `num > lastUpdated + 1` (wrapping `uint64`
sum, so `lastUpdated = 2^64-1` also qualifies), the parent header is found,
and a cached entry exists for the grandparent's parent hash, that entry is
reused and stored under the current parent hash with no contract call;
otherwise `getBlacksFrom`/`getBlacksTo` are called and merged — for
duplicate-free lists an address on both lists maps to `DirectionBoth`, only
on the from-list to `DirectionFrom`, only on the to-list to `DirectionTo` —
and the result is stored under the current parent hash. -/
theorem C9_access_list_cache_reuse :
    ∀ (env : AccessEnv) (h : Header) (parent : Header)
      (m : List (Nat × AccessDirection)),
      (alookup env.cache h.parentHash = none → 2 ≤ h.number % 2 ^ 64 →
        (env.lastBlackUpdated % 2 ^ 64 + 1) % 2 ^ 64 < h.number % 2 ^ 64 →
        env.getHeader h.parentHash (h.number % 2 ^ 64 - 1) = some parent →
        alookup env.cache parent.parentHash = some m →
        (getAccessList env h).result = .ok m ∧ (getAccessList env h).calls = [] ∧
          alookup (getAccessList env h).cache h.parentHash = some m)
      ∧ (∀ fs ts, alookup env.cache h.parentHash = none →
          env.blacksFrom = .ok fs → env.blacksTo = .ok ts →
          (¬ (2 ≤ h.number % 2 ^ 64 ∧
              (env.lastBlackUpdated % 2 ^ 64 + 1) % 2 ^ 64 < h.number % 2 ^ 64) ∨
            env.getHeader h.parentHash (h.number % 2 ^ 64 - 1) = none ∨
            (env.getHeader h.parentHash (h.number % 2 ^ 64 - 1) = some parent ∧
              alookup env.cache parent.parentHash = none)) →
          (getAccessList env h).result = .ok (mergeAccessList fs ts) ∧
            (getAccessList env h).calls = [AccEv.blacksFromCall, AccEv.blacksToCall] ∧
            alookup (getAccessList env h).cache h.parentHash =
              some (mergeAccessList fs ts))
      ∧ (∀ fs ts a, ts.Nodup →
          alookup (mergeAccessList fs ts) a =
            if a ∈ ts then
              some (if a ∈ fs then AccessDirection.DirectionBoth
                else AccessDirection.DirectionTo)
            else if a ∈ fs then some AccessDirection.DirectionFrom else none)
      ∧ (alookup env.cache h.parentHash = none → 2 ≤ h.number % 2 ^ 64 →
          env.lastBlackUpdated % 2 ^ 64 = 2 ^ 64 - 1 →
          env.getHeader h.parentHash (h.number % 2 ^ 64 - 1) = some parent →
          alookup env.cache parent.parentHash = some m →
          (getAccessList env h).result = .ok m ∧
            (getAccessList env h).calls = []) := by
  intro env h parent m
  refine ⟨?_, ?_, ?_, ?_⟩
  · intro hmiss hnum hold hpar hgp
    have hc : 2 ≤ h.number % 2 ^ 64 ∧
        (env.lastBlackUpdated % 2 ^ 64 + 1) % 2 ^ 64 < h.number % 2 ^ 64 :=
      ⟨hnum, hold⟩
    refine ⟨?_, ?_, ?_⟩ <;>
      · simp only [getAccessList, hmiss, if_pos hc, hpar, hgp, alookup_cons]
        try rw [if_pos rfl]
        try rfl
  · intro fs ts hmiss hbf hbt hcase
    rcases hcase with hno | hpar0 | ⟨hpar1, hgp0⟩
    · refine ⟨?_, ?_, ?_⟩ <;>
        · simp only [getAccessList, hmiss, if_neg hno, hbf, hbt, alookup_cons]
          try rw [if_pos rfl]
          try rfl
    · by_cases hc : 2 ≤ h.number % 2 ^ 64 ∧
          (env.lastBlackUpdated % 2 ^ 64 + 1) % 2 ^ 64 < h.number % 2 ^ 64
      · refine ⟨?_, ?_, ?_⟩ <;>
          · simp only [getAccessList, hmiss, if_pos hc, hpar0, hbf, hbt, alookup_cons]
            try rw [if_pos rfl]
            try rfl
      · refine ⟨?_, ?_, ?_⟩ <;>
          · simp only [getAccessList, hmiss, if_neg hc, hbf, hbt, alookup_cons]
            try rw [if_pos rfl]
            try rfl
    · by_cases hc : 2 ≤ h.number % 2 ^ 64 ∧
          (env.lastBlackUpdated % 2 ^ 64 + 1) % 2 ^ 64 < h.number % 2 ^ 64
      · refine ⟨?_, ?_, ?_⟩ <;>
          · simp only [getAccessList, hmiss, if_pos hc, hpar1, hgp0, hbf, hbt,
              alookup_cons]
            try rw [if_pos rfl]
            try rfl
      · refine ⟨?_, ?_, ?_⟩ <;>
          · simp only [getAccessList, hmiss, if_neg hc, hbf, hbt, alookup_cons]
            try rw [if_pos rfl]
            try rfl
  · intro fs ts a hnd
    rw [mergeAccessList]
    rw [mergeTo_lookup _ _ _ hnd, mergeFrom_lookup]
    by_cases hts : a ∈ ts <;> by_cases hfs : a ∈ fs <;> simp [hts, hfs, alookup]
  · intro hmiss hnum hwrap hpar hgp
    have hold : (env.lastBlackUpdated % 2 ^ 64 + 1) % 2 ^ 64 < h.number % 2 ^ 64 := by
      rw [hwrap, Nat.sub_add_cancel (by decide : (1 : Nat) ≤ 2 ^ 64), Nat.mod_self]
      omega
    have hc : 2 ≤ h.number % 2 ^ 64 ∧
        (env.lastBlackUpdated % 2 ^ 64 + 1) % 2 ^ 64 < h.number % 2 ^ 64 :=
      ⟨hnum, hold⟩
    refine ⟨?_, ?_⟩ <;>
      · simp only [getAccessList, hmiss, if_pos hc, hpar, hgp]
        try rfl

/-- Witness for C9 at a concrete environment: a cache miss whose contract
last-update is older than the parent reuses the grandparent's cached map with
no contract call. -/
theorem C9_access_list_cache_reuse_witness :
    (getAccessList wAccessEnvReuse wHeaderC9).result = .ok wAccessMap ∧
      (getAccessList wAccessEnvReuse wHeaderC9).calls = [] ∧
      alookup (getAccessList wAccessEnvReuse wHeaderC9).cache wHeaderC9.parentHash =
        some wAccessMap :=
  (C9_access_list_cache_reuse wAccessEnvReuse wHeaderC9 wParentHeader wAccessMap).1
    (by decide) (by decide) (by decide) (by decide) (by decide)

/-- Counterexample to C9 as stated: with the contract last updated exactly at
the grandparent block (`lastUpdated = num - 2`, not strictly older than the
grandparent), the claim's "otherwise" branch predicts a contract call, but the
code still reuses the grandparent's cached entry (`num > lastUpdated + 1`
holds) and performs no contract call. -/
theorem C9_grandparent_boundary_counterexample :
    ¬ wAccessEnvReuse.lastBlackUpdated < wHeaderC9.number - 2 ∧
      alookup wAccessEnvReuse.cache wHeaderC9.parentHash = none ∧
      (getAccessList wAccessEnvReuse wHeaderC9).calls = [] ∧
      (getAccessList wAccessEnvReuse wHeaderC9).result = .ok wAccessMap := by
  refine ⟨by decide, by decide, ?_, ?_⟩ <;> rfl

/-! ### C7: the ProposalExecuted audit log -/

theorem goCopy_exact (pre mid post src : List Nat) (off w : Nat)
    (hoff : off = pre.length) (hm : mid.length = w) (hs : src.length = w) :
    goCopy (pre ++ mid ++ post) src off w = pre ++ src ++ post := by
  subst hoff
  have hk : min w src.length = src.length := by rw [hs]; exact min_self _
  simp only [goCopy]
  rw [hk, List.take_length]
  have h1 : (pre ++ mid ++ post).take pre.length = pre := by
    rw [List.append_assoc]
    exact List.take_left pre _
  have h2 : (pre ++ mid ++ post).drop (pre.length + src.length) = post := by
    have hlen : (pre ++ mid).length = pre.length + src.length := by
      rw [List.length_append, hm, hs]
    rw [← hlen]
    exact List.drop_left _ _
  rw [h1, h2]

theorem goCopy_exact_zero (mid post src : List Nat) (w : Nat)
    (hm : mid.length = w) (hs : src.length = w) :
    goCopy (mid ++ post) src 0 w = src ++ post := by
  have := goCopy_exact [] mid post src 0 w rfl hm hs
  simpa using this

theorem goCopy_tail (pre src : List Nat) (off n : Nat) (hoff : off = pre.length)
    (h : src.length ≤ n) :
    goCopy (pre ++ List.replicate n 0) src off n =
      pre ++ src ++ List.replicate (n - src.length) 0 := by
  subst hoff
  have hk : min n src.length = src.length := min_eq_right h
  simp only [goCopy]
  rw [hk, List.take_length]
  have hsplit : List.replicate n (0 : Nat) =
      List.replicate src.length 0 ++ List.replicate (n - src.length) 0 := by
    rw [← List.replicate_add]
    congr 1
    omega
  have h1 : (pre ++ List.replicate n 0).take pre.length = pre := List.take_left pre _
  have h2 : (pre ++ List.replicate n 0).drop (pre.length + src.length) =
      List.replicate (n - src.length) 0 := by
    rw [hsplit, ← List.append_assoc]
    have hlen : (pre ++ List.replicate src.length (0 : Nat)).length =
        pre.length + src.length := by
      rw [List.length_append, List.length_replicate]
    rw [← hlen]
    exact List.drop_left _ _
  rw [h1, h2]

theorem le_pad32 (n : Nat) : n ≤ pad32 n := by
  unfold pad32
  have h := Nat.div_add_mod (n + 32 - 1) 32
  have h2 : (n + 32 - 1) % 32 < 32 := Nat.mod_lt _ (by norm_num)
  omega

theorem bytesToHashBytes_sixty : bytesToHashBytes [0x60] = beWord 0x60 := by decide

/-- The five copies of `buildProposalExecutedEventData` produce exactly the
ABI-tail concatenation: id word, action word, the fixed `0x60` offset word,
the data-length word, then the raw data right-padded with zeros to a 32-byte
multiple. -/
theorem buildProposalExecutedEventData_eq (p : Proposal) :
    buildProposalExecutedEventData p =
      beWord p.Id ++ beWord p.Action ++ beWord 0x60 ++ beWord p.Data.length ++
        (p.Data ++ List.replicate (pad32 p.Data.length - p.Data.length) 0) := by
  have hP := le_pad32 p.Data.length
  have e1 : goCopy (List.replicate (4 * 32 + pad32 p.Data.length) 0) (beWord p.Id) 0 32 =
      beWord p.Id ++ List.replicate (96 + pad32 p.Data.length) 0 := by
    have hnum : 4 * 32 + pad32 p.Data.length = 32 + (96 + pad32 p.Data.length) := by omega
    rw [hnum, List.replicate_add]
    exact goCopy_exact_zero (List.replicate 32 0)
      (List.replicate (96 + pad32 p.Data.length) 0) (beWord p.Id) 32
      (List.length_replicate 32 0) (beWord_length p.Id)
  have hpre2 : (32 : Nat) = (beWord p.Id).length := (beWord_length p.Id).symm
  have e2 : goCopy (beWord p.Id ++ List.replicate (96 + pad32 p.Data.length) 0)
      (beWord p.Action) 32 32 =
      beWord p.Id ++ beWord p.Action ++ List.replicate (64 + pad32 p.Data.length) 0 := by
    have hnum : 96 + pad32 p.Data.length = 32 + (64 + pad32 p.Data.length) := by omega
    rw [hnum, List.replicate_add, ← List.append_assoc]
    exact goCopy_exact (beWord p.Id) (List.replicate 32 0)
      (List.replicate (64 + pad32 p.Data.length) 0) (beWord p.Action) 32 32 hpre2
      (List.length_replicate 32 0) (beWord_length p.Action)
  have hpre3 : (64 : Nat) = (beWord p.Id ++ beWord p.Action).length := by
    rw [List.length_append, beWord_length, beWord_length]
  have hlen60 : (bytesToHashBytes [0x60]).length = 32 := by decide
  have e3 : goCopy
      (beWord p.Id ++ beWord p.Action ++ List.replicate (64 + pad32 p.Data.length) 0)
      (bytesToHashBytes [0x60]) 64 32 =
      beWord p.Id ++ beWord p.Action ++ beWord 0x60 ++
        List.replicate (32 + pad32 p.Data.length) 0 := by
    have hnum : 64 + pad32 p.Data.length = 32 + (32 + pad32 p.Data.length) := by omega
    rw [hnum, List.replicate_add, ← List.append_assoc]
    rw [goCopy_exact (beWord p.Id ++ beWord p.Action) (List.replicate 32 0)
      (List.replicate (32 + pad32 p.Data.length) 0) (bytesToHashBytes [0x60]) 64 32
      hpre3 (List.length_replicate 32 0) hlen60]
    rw [bytesToHashBytes_sixty, List.append_assoc (beWord p.Id ++ beWord p.Action)]
  have hpre4 : (96 : Nat) = (beWord p.Id ++ beWord p.Action ++ beWord 0x60).length := by
    rw [List.length_append, List.length_append, beWord_length, beWord_length, beWord_length]
  have e4 : goCopy
      (beWord p.Id ++ beWord p.Action ++ beWord 0x60 ++
        List.replicate (32 + pad32 p.Data.length) 0)
      (beWord p.Data.length) 96 32 =
      beWord p.Id ++ beWord p.Action ++ beWord 0x60 ++ beWord p.Data.length ++
        List.replicate (pad32 p.Data.length) 0 := by
    rw [List.replicate_add, ← List.append_assoc]
    exact goCopy_exact (beWord p.Id ++ beWord p.Action ++ beWord 0x60)
      (List.replicate 32 0) (List.replicate (pad32 p.Data.length) 0)
      (beWord p.Data.length) 96 32 hpre4 (List.length_replicate 32 0)
      (beWord_length p.Data.length)
  have hpre5 : (128 : Nat) =
      (beWord p.Id ++ beWord p.Action ++ beWord 0x60 ++ beWord p.Data.length).length := by
    rw [List.length_append, List.length_append, List.length_append,
      beWord_length, beWord_length, beWord_length, beWord_length]
  have e5 : goCopy
      (beWord p.Id ++ beWord p.Action ++ beWord 0x60 ++ beWord p.Data.length ++
        List.replicate (pad32 p.Data.length) 0)
      p.Data 128 (4 * 32 + pad32 p.Data.length - 128) =
      beWord p.Id ++ beWord p.Action ++ beWord 0x60 ++ beWord p.Data.length ++
        (p.Data ++ List.replicate (pad32 p.Data.length - p.Data.length) 0) := by
    have hw : 4 * 32 + pad32 p.Data.length - 128 = pad32 p.Data.length := by omega
    rw [hw]
    rw [goCopy_tail
      (beWord p.Id ++ beWord p.Action ++ beWord 0x60 ++ beWord p.Data.length)
      p.Data 128 (pad32 p.Data.length) hpre5 hP]
    rw [List.append_assoc (beWord p.Id ++ beWord p.Action ++ beWord 0x60 ++ beWord p.Data.length)]
  simp only [buildProposalExecutedEventData]
  rw [show ((p.Data.length + 32 - 1) / 32) * 32 = pad32 p.Data.length from rfl]
  rw [e1, e2, e3, e4, e5]

theorem getLogs_setTxContext (s : GState) (th idx q : Nat) :
    getLogs (setTxContext s th idx) q = getLogs s q := rfl

theorem setTxContext_trace (s : GState) (th idx : Nat) :
    (setTxContext s th idx).trace = s.trace := rfl

theorem setTxContext_curTxHash (s : GState) (th idx : Nat) :
    (setTxContext s th idx).curTxHash = th := rfl

theorem setTxContext_curTxIndex (s : GState) (th idx : Nat) :
    (setTxContext s th idx).curTxIndex = idx := rfl

theorem traceEv_trace (s : GState) (e : GovEv) :
    (traceEv s e).trace = s.trace ++ [e] := rfl

theorem traceEv_curTxHash (s : GState) (e : GovEv) :
    (traceEv s e).curTxHash = s.curTxHash := rfl

theorem traceEv_curTxIndex (s : GState) (e : GovEv) :
    (traceEv s e).curTxIndex = s.curTxIndex := rfl

theorem getLogs_traceEv (s : GState) (e : GovEv) (q : Nat) :
    getLogs (traceEv s e) q = getLogs s q := rfl

theorem stAddLog_curTxIndex (s : GState) (l : LogEntry) :
    (stAddLog s l).curTxIndex = s.curTxIndex := rfl

theorem getLogs_stAddLog (s : GState) (l : LogEntry) (th : Nat) :
    getLogs (stAddLog s l) th =
      if s.curTxHash = th then getLogs s th ++ [l] else getLogs s th := by
  by_cases hth : s.curTxHash = th
  · subst hth
    rw [if_pos rfl]
    unfold getLogs stAddLog addLogList
    cases hm : alookup s.logsByTx s.curTxHash with
    | none => simp [alookup_cons, hm]
    | some ls => simp [alookup_cons, hm]
  · rw [if_neg hth]
    unfold getLogs stAddLog addLogList
    cases hm : alookup s.logsByTx s.curTxHash with
    | none => simp [alookup_cons, hth]
    | some ls => simp [alookup_cons, hth]

theorem stAddLog_trace (s : GState) (l : LogEntry) : (stAddLog s l).trace = s.trace := rfl

theorem stAddLog_curTxHash (s : GState) (l : LogEntry) :
    (stAddLog s l).curTxHash = s.curTxHash := rfl

theorem foldl_stAddLog_trace (ls : List LogEntry) (s : GState) :
    (ls.foldl stAddLog s).trace = s.trace := by
  induction ls generalizing s with
  | nil => rfl
  | cons l ls ih => rw [List.foldl_cons, ih]; rfl

theorem foldl_stAddLog_curTxHash (ls : List LogEntry) (s : GState) :
    (ls.foldl stAddLog s).curTxHash = s.curTxHash := by
  induction ls generalizing s with
  | nil => rfl
  | cons l ls ih => rw [List.foldl_cons, ih]; rfl

theorem foldl_stAddLog_curTxIndex (ls : List LogEntry) (s : GState) :
    (ls.foldl stAddLog s).curTxIndex = s.curTxIndex := by
  induction ls generalizing s with
  | nil => rfl
  | cons l ls ih => rw [List.foldl_cons, ih]; rfl

theorem getLogs_foldl_stAddLog (ls : List LogEntry) (s : GState) (th : Nat) :
    getLogs (ls.foldl stAddLog s) th =
      if s.curTxHash = th then getLogs s th ++ ls else getLogs s th := by
  induction ls generalizing s with
  | nil => simp
  | cons l ls ih =>
    rw [List.foldl_cons, ih, stAddLog_curTxHash, getLogs_stAddLog]
    by_cases hth : s.curTxHash = th <;> simp [hth]

/-- The state component of `executeProposalMsg`: trace, current context and
the logs recorded under the transaction hash. -/
theorem executeProposalMsg_state (env : GovEnv) (header : Header) (s : GState)
    (prop : Proposal) (k th bh : Nat) :
    (executeProposalMsg env header s prop k th bh).1.trace = s.trace ++ execEvents prop
    ∧ getLogs (executeProposalMsg env header s prop k th bh).1 th =
        getLogs s th ++ markerLog header prop :: dispatchLogs env prop
    ∧ (executeProposalMsg env header s prop k th bh).1.curTxHash = th
    ∧ (executeProposalMsg env header s prop k th bh).1.curTxIndex = k := by
  simp only [executeProposalMsg, execEvents, dispatchLogs]
  by_cases h0 : prop.Action % 2 ^ 64 = 0
  · simp only [if_pos h0]
    refine ⟨?_, ?_, ?_, ?_⟩
    · rw [foldl_stAddLog_trace, traceEv_trace, traceEv_trace, stAddLog_trace,
        setTxContext_trace]
      simp
    · rw [getLogs_foldl_stAddLog, traceEv_curTxHash, traceEv_curTxHash,
        stAddLog_curTxHash, setTxContext_curTxHash, if_pos rfl, getLogs_traceEv,
        getLogs_traceEv, getLogs_stAddLog, setTxContext_curTxHash, if_pos rfl,
        getLogs_setTxContext]
      simp
    · rw [foldl_stAddLog_curTxHash, traceEv_curTxHash, traceEv_curTxHash,
        stAddLog_curTxHash, setTxContext_curTxHash]
    · rw [foldl_stAddLog_curTxIndex, traceEv_curTxIndex, traceEv_curTxIndex,
        stAddLog_curTxIndex, setTxContext_curTxIndex]
  · by_cases h1 : prop.Action % 2 ^ 64 = 1
    · simp only [if_neg h0, if_pos h1]
      refine ⟨?_, ?_, ?_, ?_⟩
      · rw [traceEv_trace, traceEv_trace, stAddLog_trace, setTxContext_trace]
        simp
      · rw [getLogs_traceEv, getLogs_traceEv, getLogs_stAddLog,
          setTxContext_curTxHash, if_pos rfl, getLogs_setTxContext]
      · rw [traceEv_curTxHash, traceEv_curTxHash, stAddLog_curTxHash,
          setTxContext_curTxHash]
      · rw [traceEv_curTxIndex, traceEv_curTxIndex, stAddLog_curTxIndex,
          setTxContext_curTxIndex]
    · simp only [if_neg h0, if_neg h1]
      refine ⟨?_, ?_, ?_, ?_⟩
      · rw [traceEv_trace, stAddLog_trace, setTxContext_trace]
      · rw [getLogs_traceEv, getLogs_stAddLog, setTxContext_curTxHash, if_pos rfl,
          getLogs_setTxContext]
      · rw [traceEv_curTxHash, stAddLog_curTxHash, setTxContext_curTxHash]
      · rw [traceEv_curTxIndex, stAddLog_curTxIndex, setTxContext_curTxIndex]

/-- The receipt of `executeProposalMsg`: status from the dispatched action
(an unsupported action yields a failed receipt), gas from the header, logs
from the state, and the context fields. -/
theorem executeProposalMsg_receipt (env : GovEnv) (header : Header) (s : GState)
    (prop : Proposal) (k th bh : Nat) :
    (executeProposalMsg env header s prop k th bh).2 =
      { status :=
          if (if prop.Action % 2 ^ 64 = 0 then (env.executeProposalResult prop).isSome
            else if prop.Action % 2 ^ 64 = 1 then !env.eraseResult prop.To else true)
          then receiptStatusFailed else receiptStatusSuccessful
        cumulativeGasUsed := header.gasUsed
        logs := getLogs (executeProposalMsg env header s prop k th bh).1 th
        txHash := th
        blockHash := bh
        blockNumber := header.number
        transactionIndex := k } := by
  have hidx := (executeProposalMsg_state env header s prop k th bh).2.2.2
  by_cases h0 : prop.Action % 2 ^ 64 = 0
  · simp only [executeProposalMsg, if_pos h0] at hidx ⊢
    rw [hidx]
  · by_cases h1 : prop.Action % 2 ^ 64 = 1
    · simp only [executeProposalMsg, if_neg h0, if_pos h1] at hidx ⊢
      rw [hidx]
    · simp only [executeProposalMsg, if_neg h0, if_neg h1] at hidx ⊢
      rw [hidx]

/-- Claim C7: for every proposal, regardless of its action value and of the
action's success, `executeProposalMsg` adds exactly one log at the proposal
marker address before dispatching the action, with topics
`[ProposalExecuted signature, From, To, Value]` (each as a 32-byte topic) and
data `id, action, 0x60, len(data), data` right-padded with zeros to a
32-byte multiple; the logs recorded under the transaction hash afterwards are
exactly that log followed by whatever the dispatched action emitted, the event
trace places the log emission before any dispatch event, and the receipt
carries those logs. -/
theorem C7_proposal_event_emission :
    ∀ (env : GovEnv) (header : Header) (s : GState) (prop : Proposal)
      (k th bh : Nat),
      getLogs (executeProposalMsg env header s prop k th bh).1 th =
        getLogs s th ++ markerLog header prop :: dispatchLogs env prop
      ∧ (executeProposalMsg env header s prop k th bh).1.trace =
          s.trace ++ (GovEv.addLogEv ::
            (if prop.Action % 2 ^ 64 = 0 then [GovEv.execEvm prop]
             else if prop.Action % 2 ^ 64 = 1 then [GovEv.eraseCode prop.To] else []))
      ∧ markerLog header prop =
          { address := proposalTxMark
            topics := [proposalExecutedEventSig, addrTopic prop.From,
              addrTopic prop.To, beWord prop.Value]
            data := beWord prop.Id ++ beWord prop.Action ++ beWord 0x60 ++
              beWord prop.Data.length ++
              (prop.Data ++
                List.replicate (pad32 prop.Data.length - prop.Data.length) 0)
            blockNumber := header.number }
      ∧ (executeProposalMsg env header s prop k th bh).2.logs =
          getLogs (executeProposalMsg env header s prop k th bh).1 th := by
  intro env header s prop k th bh
  refine ⟨(executeProposalMsg_state env header s prop k th bh).2.1, ?_, ?_, ?_⟩
  · exact (executeProposalMsg_state env header s prop k th bh).1
  · rw [markerLog, buildProposalExecutedEventData_eq]
  · rw [executeProposalMsg_receipt]

/-! ### Governance: replay and count checks (C1, C2, C8) -/

theorem setNonce_trace (s : GState) (a v : Nat) : (setNonce s a v).trace = s.trace := rfl

/-- `replayProposal` errs exactly as `replayCheck` says, and succeeds with the
nonce bumped and the proposal executed against the header hash otherwise. -/
theorem replayProposal_eq_check (env : GovEnv) (header : Header) (s : GState)
    (prop : Proposal) (k : Nat) (tx : GovTx) :
    (∀ e, replayProposal env header s prop k tx = .error e ↔
      replayCheck header prop tx = some e)
    ∧ (replayCheck header prop tx = none →
        ∃ sender, tx.sender = some sender ∧
          replayProposal env header s prop k tx =
            .ok (executeProposalMsg env header
              (setNonce s sender (getNonce s sender + 1)) prop k tx.hash header.hash)) := by
  unfold replayProposal replayCheck
  cases hs : tx.sender with
  | none => simp
  | some sender =>
    by_cases h1 : sender ≠ header.coinbase
    · simp [h1]
    · by_cases h2 : rlpEncodeProposal prop ≠ tx.data
      · simp [h1, h2]
      · simp [h1, h2]

/-- Claim C2 (amended): on replay, when the contract's passed-proposal count
differs from the supplied transaction count modulo 2^32 (the code compares via
`uint32(len(proposalTxs))`), `processProposalTx` returns the
invalid-proposal-count error before executing anything: the transaction and
receipt lists are unchanged and the trace records only the count read — no
proposal execution and no `finishProposalById` call. -/
theorem C2_invalid_count_aborts :
    ∀ (cfg : TurboCfg) (env : GovEnv) (header : Header) (txs0 : List GovTx)
      (receipts0 : List GovReceipt) (proposalTxs : List GovTx) (s0 : GState) (c : Nat),
      env.getPassedProposalCount = .ok c →
      c % 2 ^ 32 ≠ proposalTxs.length % 2 ^ 32 →
      processProposalTx cfg env header false txs0 receipts0 proposalTxs s0 =
        ⟨some GovErr.invalidProposalCount, txs0, receipts0, traceEv s0 GovEv.getCount⟩ := by
  intro cfg env header txs0 receipts0 proposalTxs s0 c hc hne
  simp only [processProposalTx, hc]
  rw [if_pos (And.intro trivial hne)]
  rw [if_neg ?houter]
  case houter =>
    rintro ⟨h, -⟩
    exact absurd h (by decide)

/-- Witness for C2 at the spec's concrete scenario: contract count 2 with a
single supplied proposal transaction is rejected up front. -/
theorem C2_invalid_count_aborts_witness :
    processProposalTx wCfgNoSign (wGovEnv 2 [wProp]) wHeader false [] []
        [wTxFor wProp] wGState =
      ⟨some GovErr.invalidProposalCount, [], [], traceEv wGState GovEv.getCount⟩ :=
  C2_invalid_count_aborts wCfgNoSign (wGovEnv 2 [wProp]) wHeader [] [] [wTxFor wProp]
    wGState 2 rfl (by norm_num)

/-- Counterexample to C2 as stated: with 2^32 supplied proposal transactions
and a contract count of 0, the count differs from the number of supplied
transactions, yet `uint32(len(proposalTxs))` truncates to 0 and the check
passes — `processProposalTx` returns no error instead of the
invalid-proposal-count error. -/
theorem C2_count_uint32_counterexample :
    (List.replicate (2 ^ 32) defaultGovTx).length ≠ 0 ∧
      (wGovEnv 0 []).getPassedProposalCount = .ok 0 ∧
      (processProposalTx wCfgNoSign (wGovEnv 0 []) wHeader false [] []
        (List.replicate (2 ^ 32) defaultGovTx) wGState).result = none := by
  refine ⟨by rw [List.length_replicate]; positivity, rfl, ?_⟩
  simp only [processProposalTx,
    show (wGovEnv 0 []).getPassedProposalCount = .ok 0 from rfl]
  rw [if_neg ?houter2]
  case houter2 =>
    rintro ⟨h, -⟩
    exact absurd h (by decide)
  rw [if_neg ?hcond]
  case hcond =>
    rintro ⟨-, hne⟩
    exact hne (by rw [List.length_replicate, Nat.zero_mod, Nat.mod_self])
  rw [Nat.zero_mod, List.range_zero]
  rfl

/-- Claim C8 (amended): for a proposal whose Action reduced modulo 2^64
(`Action.Uint64()`) is neither 0 nor 1, `executeProposalMsg` returns no error
— it is total — and produces a receipt with failed status otherwise populated
like the other action receipts; a replay whose sender/payload checks pass
still succeeds on such a proposal, so `processProposalTx` continues with the
remaining proposals and the finishing pass. -/
theorem C8_unsupported_action_graceful :
    ∀ (env : GovEnv) (header : Header) (s : GState) (prop : Proposal)
      (k th bh : Nat) (tx : GovTx),
      prop.Action % 2 ^ 64 ≠ 0 → prop.Action % 2 ^ 64 ≠ 1 →
      ((executeProposalMsg env header s prop k th bh).2 =
          { status := receiptStatusFailed
            cumulativeGasUsed := header.gasUsed
            logs := getLogs (executeProposalMsg env header s prop k th bh).1 th
            txHash := th
            blockHash := bh
            blockNumber := header.number
            transactionIndex := k }
        ∧ (replayCheck header prop tx = none →
            ∃ sOut r, replayProposal env header s prop k tx = .ok (sOut, r) ∧
              r.status = receiptStatusFailed)) := by
  intro env header s prop k th bh tx h0 h1
  constructor
  · rw [executeProposalMsg_receipt, if_neg h0, if_neg h1]
    rfl
  · intro hchk
    obtain ⟨sender, hsender, heq⟩ :=
      (replayProposal_eq_check env header s prop k tx).2 hchk
    refine ⟨(executeProposalMsg env header
        (setNonce s sender (getNonce s sender + 1)) prop k tx.hash header.hash).1,
      (executeProposalMsg env header
        (setNonce s sender (getNonce s sender + 1)) prop k tx.hash header.hash).2,
      heq, ?_⟩
    rw [executeProposalMsg_receipt, if_neg h0, if_neg h1]
    rfl

/-- Witness for C8 at a concrete proposal with action 7. -/
theorem C8_unsupported_action_graceful_witness :
    (7 : Nat) % 2 ^ 64 ≠ 0 ∧
      (executeProposalMsg (wGovEnv 1 []) wHeader wGState ⟨9, 7, 11, 12, 0, [4]⟩
        0 77 0).2.status = receiptStatusFailed := by
  constructor
  · norm_num
  · have h := (C8_unsupported_action_graceful (wGovEnv 1 []) wHeader wGState
      ⟨9, 7, 11, 12, 0, [4]⟩ 0 77 0 defaultGovTx (by norm_num) (by norm_num)).1
    rw [h]

/-- Counterexample to C8 as stated: a proposal with Action = 2^64 (neither 0
nor 1) truncates to 0 under `Action.Uint64()` and dispatches as the EVM call
action; when that call succeeds the receipt status is successful, not
failed. -/
theorem C8_action_uint64_counterexample :
    wPropBigAction.Action ≠ 0 ∧ wPropBigAction.Action ≠ 1 ∧
      (executeProposalMsg (wGovEnv 1 [wPropBigAction]) wHeader wGState
        wPropBigAction 0 77 0).2.status = receiptStatusSuccessful := by
  refine ⟨by norm_num [wPropBigAction], by norm_num [wPropBigAction], ?_⟩
  rw [executeProposalMsg_receipt,
    if_pos (show wPropBigAction.Action % 2 ^ 64 = 0 by norm_num [wPropBigAction])]
  rfl

/-! ### Governance loop characterizations (C1, C3) -/

theorem propAt_eq (env : GovEnv) (i : Nat) (p : Proposal)
    (h : env.getPassedProposalByIndex i = .ok p) : propAt env i = p := by
  simp [propAt, h, Except.toOption]

theorem govFinishLoop_lists (env : GovEnv) :
    ∀ (ids : List Nat) (txs : List GovTx) (receipts : List GovReceipt) (s : GState),
      (govFinishLoop env ids txs receipts s).txs = txs ∧
      (govFinishLoop env ids txs receipts s).receipts = receipts := by
  intro ids
  induction ids with
  | nil => intro txs receipts s; exact ⟨rfl, rfl⟩
  | cons id rest ih =>
    intro txs receipts s
    cases hf : env.finishProposalByIdResult id with
    | some e => simp [govFinishLoop, hf]
    | none => simp [govFinishLoop, hf, ih]

theorem govFinishLoop_result_none (env : GovEnv) :
    ∀ (ids : List Nat) (txs : List GovTx) (receipts : List GovReceipt) (s : GState),
      ((govFinishLoop env ids txs receipts s).result = none ↔
        ∀ id ∈ ids, env.finishProposalByIdResult id = none) := by
  intro ids
  induction ids with
  | nil => intro txs receipts s; simp [govFinishLoop]
  | cons id rest ih =>
    intro txs receipts s
    cases hf : env.finishProposalByIdResult id with
    | some e => simp [govFinishLoop, hf]
    | none => simp [govFinishLoop, hf, ih]

theorem govFinishLoop_trace (env : GovEnv) :
    ∀ (ids : List Nat) (txs : List GovTx) (receipts : List GovReceipt) (s : GState),
      (∀ id ∈ ids, env.finishProposalByIdResult id = none) →
      (govFinishLoop env ids txs receipts s).state.trace =
        s.trace ++ ids.map GovEv.finish := by
  intro ids
  induction ids with
  | nil => intro txs receipts s _; simp [govFinishLoop]
  | cons id rest ih =>
    intro txs receipts s hall
    have hf : env.finishProposalByIdResult id = none := hall id (List.mem_cons_self _ _)
    have hrest : ∀ x ∈ rest, env.finishProposalByIdResult x = none :=
      fun x hx => hall x (List.mem_cons_of_mem _ hx)
    simp only [govFinishLoop, hf]
    rw [ih _ _ _ hrest, traceEv_trace]
    simp

/-- A successful `replayProposal` leaves the state with the execution events
appended to the trace. -/
theorem replayProposal_ok_out (env : GovEnv) (header : Header) (s : GState)
    (prop : Proposal) (k : Nat) (tx : GovTx) (s2 : GState) (r : GovReceipt)
    (h : replayProposal env header s prop k tx = .ok (s2, r)) :
    s2.trace = s.trace ++ execEvents prop := by
  rcases hc : replayCheck header prop tx with _ | e
  · obtain ⟨sender, hs, heq⟩ := (replayProposal_eq_check env header s prop k tx).2 hc
    rw [heq] at h
    injection h with h2
    have hs2 : s2 = (executeProposalMsg env header
        (setNonce s sender (getNonce s sender + 1)) prop k tx.hash header.hash).1 :=
      (congrArg Prod.fst h2).symm
    rw [hs2, (executeProposalMsg_state env header _ prop k tx.hash header.hash).1,
      setNonce_trace]
  · rw [((replayProposal_eq_check env header s prop k tx).1 e).mpr hc] at h
    exact Except.noConfusion h

/-- A successful `executeProposal` (mining path) likewise appends the
execution events. -/
theorem executeProposal_ok_out (cfg : TurboCfg) (env : GovEnv) (header : Header)
    (s : GState) (prop : Proposal) (k : Nat) (s2 : GState) (tx2 : GovTx)
    (r : GovReceipt)
    (h : executeProposal cfg env header s prop k = .ok (s2, tx2, r)) :
    s2.trace = s.trace ++ execEvents prop := by
  simp only [executeProposal] at h
  split at h
  · exact Except.noConfusion h
  · split at h
    · exact Except.noConfusion h
    · injection h with h2
      have hs2 : s2 = (executeProposalMsg env header
          (setNonce s cfg.validator (getNonce s cfg.validator + 1)) prop k _ 0).1 :=
        (congrArg Prod.fst h2).symm
      rw [hs2, (executeProposalMsg_state env header _ prop k _ 0).1, setNonce_trace]

/-- In replay mode, a run of the execution loop that ends without error passed
every per-index replay validation. -/
theorem govLoop_replay_ok_all (cfg : TurboCfg) (env : GovEnv) (header : Header)
    (proposalTxs : List GovTx) :
    ∀ (is : List Nat) (txs : List GovTx) (receipts : List GovReceipt)
      (pIds : List Nat) (s : GState),
      (govLoop cfg env header false proposalTxs is txs receipts pIds s).result = none →
      ∀ i ∈ is, ∃ p, env.getPassedProposalByIndex i = .ok p ∧
        replayCheck header p (proposalTxs.getD i defaultGovTx) = none := by
  intro is
  induction is with
  | nil => intro txs receipts pIds s _ i hi; exact absurd hi (List.not_mem_nil i)
  | cons i rest ih =>
    intro txs receipts pIds s hres j hj
    rw [List.mem_cons] at hj
    simp only [govLoop] at hres
    split at hres
    · simp at hres
    · rename_i p heq
      rw [if_pos trivial] at hres
      split at hres
      · simp at hres
      · rename_i s2 rcpt heq2
        rcases hj with rfl | hj
        · refine ⟨p, heq, ?_⟩
          rcases hc : replayCheck header p (proposalTxs.getD j defaultGovTx) with _ | e
          · rfl
          · rw [((replayProposal_eq_check env header (traceEv s (GovEv.getProposal j)) p
              txs.length (proposalTxs.getD j defaultGovTx)).1 e).mpr hc] at heq2
            exact Except.noConfusion heq2
        · exact ih _ _ _ _ hres j hj

/-- A run of the execution loop that ends without error appended exactly one
transaction and one receipt per index, and its trace is the per-index
execution segments in index order followed by the finish calls for all
recorded Ids in recording order. -/
theorem govLoop_ok_spec (cfg : TurboCfg) (env : GovEnv) (header : Header) (mined : Bool)
    (proposalTxs : List GovTx) :
    ∀ (is : List Nat) (txs : List GovTx) (receipts : List GovReceipt)
      (pIds : List Nat) (s : GState),
      (govLoop cfg env header mined proposalTxs is txs receipts pIds s).result = none →
      ∃ newTxs newReceipts,
        newTxs.length = is.length ∧ newReceipts.length = is.length ∧
        (govLoop cfg env header mined proposalTxs is txs receipts pIds s).txs =
          txs ++ newTxs ∧
        (govLoop cfg env header mined proposalTxs is txs receipts pIds s).receipts =
          receipts ++ newReceipts ∧
        (govLoop cfg env header mined proposalTxs is txs receipts pIds s).state.trace =
          s.trace ++
            (is.bind fun i => GovEv.getProposal i :: execEvents (propAt env i)) ++
            ((pIds ++ is.map fun i => (propAt env i).Id).map GovEv.finish) := by
  intro is
  induction is with
  | nil =>
    intro txs receipts pIds s hres
    simp only [govLoop] at hres ⊢
    refine ⟨[], [], rfl, rfl, ?_, ?_, ?_⟩
    · rw [(govFinishLoop_lists env pIds txs receipts s).1]
      simp
    · rw [(govFinishLoop_lists env pIds txs receipts s).2]
      simp
    · rw [govFinishLoop_trace env pIds txs receipts s
        ((govFinishLoop_result_none env pIds txs receipts s).mp hres)]
      simp
  | cons i rest ih =>
    intro txs receipts pIds s hres
    simp only [govLoop] at hres ⊢
    split at hres
    · simp at hres
    · rename_i p heq
      have hp : propAt env i = p := propAt_eq env i p heq
      by_cases hm : mined = false
      · rw [if_pos hm] at hres ⊢
        split at hres
        · simp at hres
        · rename_i s2 rcpt heq2
          obtain ⟨nt, nr, hl1, hl2, ht, hr, htr⟩ := ih _ _ _ _ hres
          refine ⟨proposalTxs.getD i defaultGovTx :: nt, rcpt :: nr, ?_, ?_, ?_, ?_, ?_⟩
          · simp [hl1]
          · simp [hl2]
          · rw [ht]
            simp
          · rw [hr]
            simp
          · rw [htr, replayProposal_ok_out env header _ p txs.length _ s2 rcpt heq2,
              traceEv_trace]
            simp [hp, List.append_assoc]
      · rw [if_neg hm] at hres ⊢
        split at hres
        · simp at hres
        · rename_i s2 tx2 rcpt heq2
          obtain ⟨nt, nr, hl1, hl2, ht, hr, htr⟩ := ih _ _ _ _ hres
          refine ⟨tx2 :: nt, rcpt :: nr, ?_, ?_, ?_, ?_, ?_⟩
          · simp [hl1]
          · simp [hl2]
          · rw [ht]
            simp
          · rw [hr]
            simp
          · rw [htr, executeProposal_ok_out cfg env header _ p txs.length s2 tx2 rcpt heq2,
              traceEv_trace]
            simp [hp, List.append_assoc]

/-! ### C1: replay validation -/

/-- Claim C1: during replay, `replayProposal` recovers the sender and errs
unless it recovers and equals the header coinbase; it then RLP-encodes the
proposal from contract state and errs unless the bytes equal the
transaction's input data; and any such failure propagates out of
`processProposalTx` — a replay run that returns no error passed both checks
at every proposal index. -/
theorem C1_replay_validation :
    ∀ (cfg : TurboCfg) (env : GovEnv) (header : Header) (s : GState) (prop : Proposal)
      (k : Nat) (tx : GovTx) (txs0 : List GovTx) (receipts0 : List GovReceipt)
      (proposalTxs : List GovTx) (s0 : GState) (c : Nat),
      (∀ e, replayProposal env header s prop k tx = .error e ↔
        replayCheck header prop tx = some e)
      ∧ (tx.sender = none →
          replayCheck header prop tx = some GovErr.senderRecoveryFailed)
      ∧ (∀ sender, tx.sender = some sender → sender ≠ header.coinbase →
          replayCheck header prop tx = some GovErr.invalidSender)
      ∧ (∀ sender, tx.sender = some sender → sender = header.coinbase →
          rlpEncodeProposal prop ≠ tx.data →
          replayCheck header prop tx = some GovErr.dataMissmatch)
      ∧ (env.getPassedProposalCount = .ok c →
          (processProposalTx cfg env header false txs0 receipts0 proposalTxs
            s0).result = none →
          ∀ i, i < c % 2 ^ 32 →
            ∃ p, env.getPassedProposalByIndex i = .ok p ∧
              replayCheck header p (proposalTxs.getD i defaultGovTx) = none) := by
  intro cfg env header s prop k tx txs0 receipts0 proposalTxs s0 c
  refine ⟨(replayProposal_eq_check env header s prop k tx).1, ?_, ?_, ?_, ?_⟩
  · intro hs
    simp [replayCheck, hs]
  · intro sender hs hne
    simp [replayCheck, hs, hne]
  · intro sender hs hcb hne
    simp [replayCheck, hs, hcb, hne]
  · intro hc hres i hi
    simp only [processProposalTx, hc] at hres
    rw [if_neg (show ¬ ((false : Bool) = true ∧ cfg.signTxFn.isNone = true) from
      fun h => Bool.noConfusion h.1)] at hres
    by_cases hcnt : c % 2 ^ 32 ≠ proposalTxs.length % 2 ^ 32
    · rw [if_pos (And.intro trivial hcnt)] at hres
      simp at hres
    · rw [if_neg (fun h => hcnt h.2)] at hres
      exact govLoop_replay_ok_all cfg env header proposalTxs _ _ _ _ _ hres i
        (List.mem_range.mpr hi)

/-- Witness for C1 at a concrete replay run with one proposal: the run
succeeds, so the index-0 validation facts are recovered from the theorem. -/
theorem C1_replay_validation_witness :
    ∃ p, (wGovEnv 1 [wProp]).getPassedProposalByIndex 0 = .ok p ∧
      replayCheck wHeader p ([wTxFor wProp].getD 0 defaultGovTx) = none :=
  (C1_replay_validation wCfgNoSign (wGovEnv 1 [wProp]) wHeader wGState wProp 0
      (wTxFor wProp) [] [] [wTxFor wProp] wGState 1).2.2.2.2 rfl (by decide) 0
    (by norm_num)

/-! ### C3: execution order and the finishing pass -/

theorem count_finish_execEvents (p : Proposal) (id : Nat) :
    (execEvents p).count (GovEv.finish id) = 0 := by
  simp only [execEvents]
  split <;> (try split) <;> simp [List.count_cons]

theorem count_finish_bind (env : GovEnv) (id : Nat) :
    ∀ is : List Nat,
      ((is.bind fun i => GovEv.getProposal i :: execEvents (propAt env i)).count
        (GovEv.finish id)) = 0 := by
  intro is
  induction is with
  | nil => rfl
  | cons i rest ih =>
    simp [List.count_append, List.count_cons, ih, count_finish_execEvents]

theorem count_finish_map (ids : List Nat) (id : Nat) :
    (ids.map GovEv.finish).count (GovEv.finish id) = ids.count id := by
  induction ids with
  | nil => rfl
  | cons a rest ih => simp [List.count_cons, ih, GovEv.finish.injEq]

/-- Claim C3 (amended): whenever `processProposalTx` actually performs the
settlement (it is not the unauthorized-mining skip) and returns without
error, it executes all N passed proposals in ascending index order, appending
exactly one transaction and one receipt per proposal, and only after all
executions does it call `finishProposalById` once per recorded Id in exactly
the processed order — the trace is the execution segments for indices
0..N-1 followed by the finish calls, with no interleaving, and the number of
finish calls for an Id equals that Id's multiplicity among the recorded Ids
(exactly once each when the Ids are distinct). -/
theorem C3_execute_then_finish_order :
    ∀ (cfg : TurboCfg) (env : GovEnv) (header : Header) (mined : Bool)
      (txs0 : List GovTx) (receipts0 : List GovReceipt) (proposalTxs : List GovTx)
      (s0 : GState) (c : Nat),
      ¬ (mined = true ∧ cfg.signTxFn.isNone = true) →
      env.getPassedProposalCount = .ok c →
      (processProposalTx cfg env header mined txs0 receipts0 proposalTxs
        s0).result = none →
      ∃ newTxs newReceipts,
        newTxs.length = c % 2 ^ 32 ∧ newReceipts.length = c % 2 ^ 32 ∧
        (processProposalTx cfg env header mined txs0 receipts0 proposalTxs s0).txs =
          txs0 ++ newTxs ∧
        (processProposalTx cfg env header mined txs0 receipts0 proposalTxs
          s0).receipts = receipts0 ++ newReceipts ∧
        (processProposalTx cfg env header mined txs0 receipts0 proposalTxs
          s0).state.trace =
          s0.trace ++ [GovEv.getCount] ++
            ((List.range (c % 2 ^ 32)).bind fun i =>
              GovEv.getProposal i :: execEvents (propAt env i)) ++
            (((List.range (c % 2 ^ 32)).map fun i => (propAt env i).Id).map
              GovEv.finish) ∧
        (∀ id,
          ((processProposalTx cfg env header mined txs0 receipts0 proposalTxs
            s0).state.trace).count (GovEv.finish id) =
            s0.trace.count (GovEv.finish id) +
              ((List.range (c % 2 ^ 32)).map fun i => (propAt env i).Id).count id) := by
  intro cfg env header mined txs0 receipts0 proposalTxs s0 c hskip hc hres
  simp only [processProposalTx, hc] at hres ⊢
  rw [if_neg hskip] at hres ⊢
  by_cases hinv : mined = false ∧ c % 2 ^ 32 ≠ proposalTxs.length % 2 ^ 32
  · rw [if_pos hinv] at hres
    simp at hres
  · rw [if_neg hinv] at hres ⊢
    obtain ⟨nt, nr, hl1, hl2, ht, hr, htr⟩ :=
      govLoop_ok_spec cfg env header mined proposalTxs _ _ _ _ _ hres
    refine ⟨nt, nr, by simpa using hl1, by simpa using hl2, ht, hr, ?_, ?_⟩
    · rw [htr, traceEv_trace]
      simp [List.append_assoc]
    · intro id
      rw [htr, traceEv_trace, List.nil_append]
      rw [List.count_append, List.count_append, List.count_append,
        count_finish_bind, count_finish_map]
      simp [List.count_cons]

/-- Witness for C3 at a concrete replay of two proposals (an EVM call and an
erase): the run succeeds and the theorem recovers the lists and the full
ordered trace. -/
theorem C3_execute_then_finish_order_witness :
    ∃ newTxs newReceipts,
      newTxs.length = 2 % 2 ^ 32 ∧ newReceipts.length = 2 % 2 ^ 32 ∧
      (processProposalTx wCfgNoSign (wGovEnv 2 [wProp, wPropErase]) wHeader false [] []
        [wTxFor wProp, wTxFor wPropErase] wGState).txs = [] ++ newTxs ∧
      (processProposalTx wCfgNoSign (wGovEnv 2 [wProp, wPropErase]) wHeader false [] []
        [wTxFor wProp, wTxFor wPropErase] wGState).receipts = [] ++ newReceipts ∧
      (processProposalTx wCfgNoSign (wGovEnv 2 [wProp, wPropErase]) wHeader false [] []
        [wTxFor wProp, wTxFor wPropErase] wGState).state.trace =
        wGState.trace ++ [GovEv.getCount] ++
          ((List.range (2 % 2 ^ 32)).bind fun i =>
            GovEv.getProposal i ::
              execEvents (propAt (wGovEnv 2 [wProp, wPropErase]) i)) ++
          (((List.range (2 % 2 ^ 32)).map fun i =>
            (propAt (wGovEnv 2 [wProp, wPropErase]) i).Id).map GovEv.finish) ∧
      (∀ id,
        ((processProposalTx wCfgNoSign (wGovEnv 2 [wProp, wPropErase]) wHeader false
          [] [] [wTxFor wProp, wTxFor wPropErase] wGState).state.trace).count
            (GovEv.finish id) =
          wGState.trace.count (GovEv.finish id) +
            ((List.range (2 % 2 ^ 32)).map fun i =>
              (propAt (wGovEnv 2 [wProp, wPropErase]) i).Id).count id) :=
  C3_execute_then_finish_order wCfgNoSign (wGovEnv 2 [wProp, wPropErase]) wHeader false
    [] [] [wTxFor wProp, wTxFor wPropErase] wGState 2 (by simp) rfl (by decide)

/-- Counterexample to C3 as stated: on the authoring path with no signing key
configured (`mined` with `signTxFn = nil`), `processProposalTx` returns
success immediately although one passed proposal exists — nothing is
executed, nothing is appended and no finish call is made, contradicting the
claim's unconditional "executes all N proposals ... then finishes each". -/
theorem C3_unauthorized_mining_skip_counterexample :
    (wGovEnv 1 [wProp]).getPassedProposalCount = .ok 1 ∧
      processProposalTx wCfgNoSign (wGovEnv 1 [wProp]) wHeader true [] [] [] wGState =
        ⟨none, [], [], wGState⟩ := by
  exact ⟨rfl, rfl⟩

/-! ### Lemmas about the transaction loop of Process -/

/-- Every event in the loop's trace is either inherited from the initial
trace or is a filter/apply call for a transaction whose sender recovered and
was not classified as a double-sign punishment. -/
theorem processLoop_trace_mem (eng : PEngine) :
    ∀ (txs : List PTx) (i : Nat) (receipts : List PReceipt)
      (common punish : List PTx) (trace : List PEv) (ev : PEv),
      ev ∈ (processLoop eng true txs i receipts common punish trace).trace →
      ev ∈ trace ∨
        ∃ t s, t.sender = some s ∧ eng.isDoubleSignPunish s t = false ∧
          (ev = PEv.filterTxCall t ∨ ev = PEv.applyCall t) := by
  intro txs
  induction txs with
  | nil =>
    intro i receipts common punish trace ev hev
    exact Or.inl hev
  | cons t rest ih =>
    intro i receipts common punish trace ev hev
    simp only [processLoop] at hev
    split at hev
    · exact Or.inl hev
    · split at hev
      · split at hev
        · exact Or.inl hev
        · rename_i s hs
          split at hev
          · exact Or.inl hev
          · split at hev
            · exact ih _ _ _ _ _ _ hev
            · rename_i hdsp
              have hdsp' : eng.isDoubleSignPunish s t = false := by
                simpa using hdsp
              split at hev
              · rcases List.mem_append.mp hev with h | h
                · exact Or.inl h
                · refine Or.inr ⟨t, s, hs, hdsp', Or.inl ?_⟩
                  simpa using h
              · split at hev
                · rcases List.mem_append.mp hev with h | h
                  · rcases List.mem_append.mp h with h2 | h2
                    · exact Or.inl h2
                    · refine Or.inr ⟨t, s, hs, hdsp', Or.inl ?_⟩
                      simpa using h2
                  · refine Or.inr ⟨t, s, hs, hdsp', Or.inr ?_⟩
                    simpa using h
                · rcases ih _ _ _ _ _ _ hev with h | h
                  · rcases List.mem_append.mp h with h2 | h2
                    · rcases List.mem_append.mp h2 with h3 | h3
                      · exact Or.inl h3
                      · refine Or.inr ⟨t, s, hs, hdsp', Or.inl ?_⟩
                        simpa using h3
                    · refine Or.inr ⟨t, s, hs, hdsp', Or.inr ?_⟩
                      simpa using h2
                  · exact Or.inr h
      · rename_i hft
        exact absurd trivial hft

/-- A turbo loop run that returns no error splits the transactions exactly by
double-sign classification: the punishment accumulator gains the classified
transactions, the common accumulator the rest, and one receipt is recorded
per common transaction. -/
theorem processLoop_ok_spec_turbo (eng : PEngine) :
    ∀ (txs : List PTx) (i : Nat) (receipts : List PReceipt)
      (common punish : List PTx) (trace : List PEv),
      (processLoop eng true txs i receipts common punish trace).result = none →
      (processLoop eng true txs i receipts common punish trace).punishTxs =
          punish ++ txs.filter (dspClassified eng) ∧
        (processLoop eng true txs i receipts common punish trace).commonTxs =
          common ++ txs.filter (fun t => !dspClassified eng t) ∧
        (processLoop eng true txs i receipts common punish trace).receipts.length =
          receipts.length + (txs.filter fun t => !dspClassified eng t).length := by
  intro txs
  induction txs with
  | nil =>
    intro i receipts common punish trace _
    simp [processLoop]
  | cons t rest ih =>
    intro i receipts common punish trace hres
    simp only [processLoop] at hres ⊢
    by_cases hp : IsPreserved t.toAddr = true
    · rw [if_pos hp] at hres
      simp at hres
    · rw [if_neg hp] at hres ⊢
      rw [if_pos trivial] at hres ⊢
      split at hres
      · simp at hres
      · rename_i s hs
        split at hres
        · simp at hres
        · by_cases hdsp : eng.isDoubleSignPunish s t = true
          · rw [if_pos hdsp] at hres ⊢
            have hcl : dspClassified eng t = true := by
              simp [dspClassified, hs, hdsp]
            obtain ⟨h1, h2, h3⟩ := ih _ _ _ _ _ hres
            refine ⟨?_, ?_, ?_⟩
            · rw [h1]
              simp [List.filter_cons, hcl]
            · rw [h2]
              simp [List.filter_cons, hcl]
            · rw [h3]
              simp [List.filter_cons, hcl]
          · rw [if_neg hdsp] at hres ⊢
            have hcl : dspClassified eng t = false := by
              simp only [dspClassified, hs]
              simpa using hdsp
            split at hres
            · simp at hres
            · split at hres
              · simp at hres
              · obtain ⟨h1, h2, h3⟩ := ih _ _ _ _ _ hres
                refine ⟨?_, ?_, ?_⟩
                · rw [h1]
                  simp [List.filter_cons, hcl]
                · rw [h2]
                  simp [List.filter_cons, hcl]
                · rw [h3]
                  simp [List.filter_cons, hcl]
                  try omega

/-- A loop run (turbo or not) that returns no error contains no transaction
with a preserved recipient. -/
theorem processLoop_ok_no_preserved (eng : PEngine) (isTurbo : Bool) :
    ∀ (txs : List PTx) (i : Nat) (receipts : List PReceipt)
      (common punish : List PTx) (trace : List PEv),
      (processLoop eng isTurbo txs i receipts common punish trace).result = none →
      ∀ t ∈ txs, IsPreserved t.toAddr = false := by
  intro txs
  induction txs with
  | nil =>
    intro i receipts common punish trace _ t ht
    exact absurd ht (List.not_mem_nil t)
  | cons t rest ih =>
    intro i receipts common punish trace hres u hu
    simp only [processLoop] at hres
    split at hres
    · simp at hres
    · rename_i hp
      have hpt : IsPreserved t.toAddr = false := by simpa using hp
      rcases List.mem_cons.mp hu with h | h
      · rw [h]
        exact hpt
      · split at hres
        · split at hres
          · simp at hres
          · split at hres
            · simp at hres
            · split at hres
              · exact ih _ _ _ _ _ hres u h
              · split at hres
                · simp at hres
                · split at hres
                  · simp at hres
                  · exact ih _ _ _ _ _ hres u h
        · split at hres
          · simp at hres
          · exact ih _ _ _ _ _ hres u h

/-- If the first `k` transactions complete their loop iteration without an
error and the `k`-th has a preserved recipient, the loop stops exactly there
with the preserved-address error carrying that position and hash. -/
theorem processLoop_first_preserved (eng : PEngine) (isTurbo : Bool) :
    ∀ (txs : List PTx) (k i0 : Nat) (receipts : List PReceipt)
      (common punish : List PTx) (trace : List PEv),
      k < txs.length →
      (∀ j, j < k → pstepOk eng isTurbo (txs.getD j defaultPTx) = true) →
      IsPreserved (txs.getD k defaultPTx).toAddr = true →
      (processLoop eng isTurbo txs i0 receipts common punish trace).result =
        some (PErr.preserved (i0 + k) (txs.getD k defaultPTx).tid) := by
  intro txs
  induction txs with
  | nil =>
    intro k i0 receipts common punish trace hk
    exact absurd hk (by simp)
  | cons t rest ih =>
    intro k i0 receipts common punish trace hk hsteps hpres
    cases k with
    | zero =>
      rw [List.getD_cons_zero] at hpres ⊢
      simp only [processLoop]
      rw [if_pos hpres]
      simp
    | succ k =>
      have hk' : k < rest.length := by simpa using hk
      have hpres' : IsPreserved ((rest.getD k defaultPTx).toAddr) = true := by
        simpa using hpres
      have hsteps' : ∀ j, j < k → pstepOk eng isTurbo (rest.getD j defaultPTx) = true := by
        intro j hj
        have h := hsteps (j + 1) (Nat.succ_lt_succ hj)
        simpa using h
      have h0 : pstepOk eng isTurbo t = true := by
        have h := hsteps 0 (Nat.succ_pos k)
        simpa using h
      rw [pstepOk, Bool.and_eq_true] at h0
      obtain ⟨hnp, hrest0⟩ := h0
      have hp : IsPreserved t.toAddr = false := by simpa using hnp
      have harith : i0 + 1 + k = i0 + (k + 1) := by omega
      rw [List.getD_cons_succ]
      simp only [processLoop]
      rw [if_neg (by simp [hp])]
      cases hIT : isTurbo with
      | false =>
        subst hIT
        rw [if_neg (by simp)] at hrest0 ⊢
        cases happ : eng.applyTx t with
        | error c =>
          rw [happ] at hrest0
          simp [Except.toBool, Except.isOk] at hrest0
        | ok r =>
          simp only [happ]
          rw [← harith]
          exact ih k (i0 + 1) _ _ _ _ hk' hsteps' hpres'
      | true =>
        subst hIT
        rw [if_pos rfl] at hrest0 ⊢
        cases hs : t.sender with
        | none =>
          rw [hs] at hrest0
          simp at hrest0
        | some s =>
          rw [hs] at hrest0
          simp at hrest0
          obtain ⟨hev, hbr⟩ := hrest0
          simp only [hs, hev]
          by_cases hdsp : eng.isDoubleSignPunish s t = true
          · rw [if_pos hdsp]
            rw [← harith]
            exact ih k (i0 + 1) _ _ _ _ hk' hsteps' hpres'
          · rw [if_neg hdsp]
            rcases hbr with hbr | ⟨hft, happ⟩
            · exact absurd hbr hdsp
            · simp only [hft]
              cases ha : eng.applyTx t with
              | error c =>
                rw [ha] at happ
                simp [Except.toBool, Except.isOk] at happ
              | ok r =>
                simp only [ha]
                rw [← harith]
                exact ih k (i0 + 1) _ _ _ _ hk' hsteps' hpres'

/-- When `Process` returns no error, its lists are exactly the loop's and its
trace is the loop's followed by the finalization call. -/
theorem Process_ok_fields (eng : PEngine) (isTurbo : Bool) (txs : List PTx)
    (w sh : Bool)
    (h : (Process eng isTurbo txs w sh).result = none) :
    (processLoop eng isTurbo txs 0 [] [] [] []).result = none ∧
      (Process eng isTurbo txs w sh).receipts =
        (processLoop eng isTurbo txs 0 [] [] [] []).receipts ∧
      (Process eng isTurbo txs w sh).commonTxs =
        (processLoop eng isTurbo txs 0 [] [] [] []).commonTxs ∧
      (Process eng isTurbo txs w sh).punishTxs =
        (processLoop eng isTurbo txs 0 [] [] [] []).punishTxs ∧
      (Process eng isTurbo txs w sh).trace =
        (processLoop eng isTurbo txs 0 [] [] [] []).trace ++
          [PEv.finalizeCall (processLoop eng isTurbo txs 0 [] [] [] []).commonTxs
            (processLoop eng isTurbo txs 0 [] [] [] []).receipts
            (processLoop eng isTurbo txs 0 [] [] [] []).punishTxs] := by
  simp only [Process] at h ⊢
  by_cases hT : isTurbo = true
  · rw [if_pos hT] at h ⊢
    split at h
    · simp at h
    · split at h
      · rename_i e heq
        rw [heq] at h
        simp at h
      · rename_i heq
        by_cases hw : w = true ∧ sh = false
        · rw [if_pos hw] at h
          simp at h
        · rw [if_neg hw] at h ⊢
          split at h
          · simp at h
          · try rw [heq]
            exact ⟨rfl, rfl, rfl, rfl, rfl⟩
  · rw [if_neg hT] at h ⊢
    split at h
    · rename_i e heq
      rw [heq] at h
      simp at h
    · rename_i heq
      by_cases hw : w = true ∧ sh = false
      · rw [if_pos hw] at h
        simp at h
      · rw [if_neg hw] at h ⊢
        split at h
        · simp at h
        · try rw [heq]
          exact ⟨rfl, rfl, rfl, rfl, rfl⟩

/-- An error of the transaction loop is the error of `Process` (when turbo
pre-handling does not fail first) and makes the caller-visible result an
error. -/
theorem Process_err_of_loop (eng : PEngine) (isTurbo : Bool) (txs : List PTx)
    (w sh : Bool) (e : PErr)
    (hpre : isTurbo = true → eng.preHandle = none)
    (h : (processLoop eng isTurbo txs 0 [] [] [] []).result = some e) :
    (Process eng isTurbo txs w sh).result = some e ∧
      ProcessResult eng isTurbo txs w sh = .error e := by
  have hres : (Process eng isTurbo txs w sh).result = some e := by
    simp only [Process]
    cases hIT : isTurbo with
    | true =>
      subst hIT
      rw [if_pos rfl, hpre rfl]
      simp [h]
    | false =>
      subst hIT
      rw [if_neg (by simp)]
      simp [h]
  exact ⟨hres, by simp only [ProcessResult, hres]⟩

/-- The trace of `Process` is empty (pre-handling failed), the loop's trace
(the loop or the withdrawals check failed), or the loop's trace followed by
the finalization call. -/
theorem Process_trace_cases (eng : PEngine) (isTurbo : Bool) (txs : List PTx)
    (w sh : Bool) :
    (Process eng isTurbo txs w sh).trace = [] ∨
      (Process eng isTurbo txs w sh).trace =
        (processLoop eng isTurbo txs 0 [] [] [] []).trace ∨
      (Process eng isTurbo txs w sh).trace =
        (processLoop eng isTurbo txs 0 [] [] [] []).trace ++
          [PEv.finalizeCall (processLoop eng isTurbo txs 0 [] [] [] []).commonTxs
            (processLoop eng isTurbo txs 0 [] [] [] []).receipts
            (processLoop eng isTurbo txs 0 [] [] [] []).punishTxs] := by
  simp only [Process]
  split
  · split
    · exact Or.inl rfl
    · split
      · exact Or.inr (Or.inl rfl)
      · split
        · exact Or.inr (Or.inl rfl)
        · split
          · exact Or.inr (Or.inr rfl)
          · exact Or.inr (Or.inr rfl)
  · split
    · exact Or.inr (Or.inl rfl)
    · split
      · exact Or.inr (Or.inl rfl)
      · split
        · exact Or.inr (Or.inr rfl)
        · exact Or.inr (Or.inr rfl)

/-! ### C4: double-sign punishment transactions are separated -/

/-- Claim C4: in `Process` with the turbo engine, a transaction classified as
a double-sign punishment is never passed to the access filter and never
applied to the EVM (every filter/apply call in the trace concerns an
unclassified transaction), and on a successful run the punishment list holds
exactly the classified transactions, the ordinary list exactly the others,
one receipt exists per ordinary transaction, and the final engine call is
`Finalize` receiving the ordinary and punishment lists separately. -/
theorem C4_punish_tx_separation (eng : PEngine) (txs : List PTx) (w sh : Bool) :
    (∀ t, PEv.filterTxCall t ∈ (Process eng true txs w sh).trace →
        dspClassified eng t = false) ∧
      (∀ t, PEv.applyCall t ∈ (Process eng true txs w sh).trace →
        dspClassified eng t = false) ∧
      ((Process eng true txs w sh).result = none →
        (Process eng true txs w sh).punishTxs = txs.filter (dspClassified eng) ∧
          (Process eng true txs w sh).commonTxs =
            txs.filter (fun t => !dspClassified eng t) ∧
          (Process eng true txs w sh).receipts.length =
            (Process eng true txs w sh).commonTxs.length ∧
          (Process eng true txs w sh).trace.getLast? =
            some (PEv.finalizeCall (Process eng true txs w sh).commonTxs
              (Process eng true txs w sh).receipts
              (Process eng true txs w sh).punishTxs)) := by
  have hmem : ∀ ev, ev ∈ (Process eng true txs w sh).trace →
      ev ∈ (processLoop eng true txs 0 [] [] [] []).trace ∨
        ev = PEv.finalizeCall (processLoop eng true txs 0 [] [] [] []).commonTxs
          (processLoop eng true txs 0 [] [] [] []).receipts
          (processLoop eng true txs 0 [] [] [] []).punishTxs := by
    intro ev hev
    rcases Process_trace_cases eng true txs w sh with h | h | h
    · rw [h] at hev
      exact absurd hev (List.not_mem_nil ev)
    · rw [h] at hev
      exact Or.inl hev
    · rw [h] at hev
      rcases List.mem_append.mp hev with h2 | h2
      · exact Or.inl h2
      · exact Or.inr (by simpa using h2)
  refine ⟨?_, ?_, ?_⟩
  · intro t hf
    rcases hmem _ hf with h | h
    · rcases processLoop_trace_mem eng txs 0 [] [] [] [] _ h with h0 | ⟨u, s, hs, hd, hc⟩
      · exact absurd h0 (List.not_mem_nil _)
      · rcases hc with hc | hc
        · simp only [PEv.filterTxCall.injEq] at hc
          rw [hc]
          simp [dspClassified, hs, hd]
        · simp at hc
    · simp at h
  · intro t hf
    rcases hmem _ hf with h | h
    · rcases processLoop_trace_mem eng txs 0 [] [] [] [] _ h with h0 | ⟨u, s, hs, hd, hc⟩
      · exact absurd h0 (List.not_mem_nil _)
      · rcases hc with hc | hc
        · simp at hc
        · simp only [PEv.applyCall.injEq] at hc
          rw [hc]
          simp [dspClassified, hs, hd]
    · simp at h
  · intro hres
    obtain ⟨hl, hrec, hcom, hpun, htr⟩ := Process_ok_fields eng true txs w sh hres
    obtain ⟨h1, h2, h3⟩ := processLoop_ok_spec_turbo eng txs 0 [] [] [] [] hl
    refine ⟨?_, ?_, ?_, ?_⟩
    · rw [hpun, h1]
      simp
    · rw [hcom, h2]
      simp
    · rw [hrec, hcom, h3, h2]
      simp
    · rw [htr, hcom, hrec, hpun]
      rw [List.getLast?_concat]

/-- Witness for C4 on a block of one punishment transaction and one ordinary
transaction: the run succeeds and the theorem yields the separation. -/
theorem C4_punish_tx_separation_witness :
    (Process wEng true [wTxPunish, wTxNormal] false true).result = none ∧
      ((Process wEng true [wTxPunish, wTxNormal] false true).punishTxs =
          [wTxPunish, wTxNormal].filter (dspClassified wEng) ∧
        (Process wEng true [wTxPunish, wTxNormal] false true).commonTxs =
          [wTxPunish, wTxNormal].filter (fun t => !dspClassified wEng t) ∧
        (Process wEng true [wTxPunish, wTxNormal] false true).receipts.length =
          (Process wEng true [wTxPunish, wTxNormal] false true).commonTxs.length ∧
        (Process wEng true [wTxPunish, wTxNormal] false true).trace.getLast? =
          some (PEv.finalizeCall
            (Process wEng true [wTxPunish, wTxNormal] false true).commonTxs
            (Process wEng true [wTxPunish, wTxNormal] false true).receipts
            (Process wEng true [wTxPunish, wTxNormal] false true).punishTxs)) :=
  ⟨by decide,
    (C4_punish_tx_separation wEng [wTxPunish, wTxNormal] false true).2.2 (by decide)⟩

/-! ### C5: preserved-address rejection -/

/-- Claim C5, amended: a nil recipient is never preserved; when every
transaction before index `k` completes its loop iteration without error and
the `k`-th transaction's recipient is preserved, `Process` fails with the
preserved-address error for that position and `ProcessResult` returns the
error (hence no receipts); and in general any block containing a
preserved-recipient transaction makes `Process` fail with some error —
though, as the counterexample shows, not necessarily the preserved one. -/
theorem C5_preserved_address_rejection (eng : PEngine) (isTurbo : Bool)
    (txs : List PTx) (w sh : Bool) (k : Nat)
    (hpre : isTurbo = true → eng.preHandle = none)
    (hk : k < txs.length)
    (hsteps : ∀ j, j < k → pstepOk eng isTurbo (txs.getD j defaultPTx) = true)
    (hpres : IsPreserved (txs.getD k defaultPTx).toAddr = true) :
    IsPreserved none = false ∧
      (Process eng isTurbo txs w sh).result =
        some (PErr.preserved k (txs.getD k defaultPTx).tid) ∧
      ProcessResult eng isTurbo txs w sh =
        .error (PErr.preserved k (txs.getD k defaultPTx).tid) ∧
      (∀ (eng2 : PEngine) (isTurbo2 : Bool) (txs2 : List PTx) (w2 sh2 : Bool),
        (∃ t ∈ txs2, IsPreserved t.toAddr = true) →
        (Process eng2 isTurbo2 txs2 w2 sh2).result.isSome = true) := by
  have hloop := processLoop_first_preserved eng isTurbo txs k 0 [] [] [] [] hk hsteps hpres
  rw [Nat.zero_add] at hloop
  obtain ⟨hr, hpr⟩ := Process_err_of_loop eng isTurbo txs w sh _ hpre hloop
  refine ⟨rfl, hr, hpr, ?_⟩
  intro eng2 isTurbo2 txs2 w2 sh2 hex
  obtain ⟨t, ht, htp⟩ := hex
  by_contra hno
  have hnone : (Process eng2 isTurbo2 txs2 w2 sh2).result = none := by
    cases hres2 : (Process eng2 isTurbo2 txs2 w2 sh2).result with
    | none => rfl
    | some e =>
      rw [hres2] at hno
      exact absurd rfl hno
  have hln := (Process_ok_fields eng2 isTurbo2 txs2 w2 sh2 hnone).1
  have hnp := processLoop_ok_no_preserved eng2 isTurbo2 txs2 0 [] [] [] [] hln t ht
  rw [hnp] at htp
  exact Bool.noConfusion htp

/-- Witness for C5: with an ordinary transaction followed by a transaction
sent to the fee-recorder address, processing fails at position 1 with the
preserved-address error and the caller receives the error. -/
theorem C5_preserved_address_rejection_witness :
    IsPreserved none = false ∧
      (Process wEng true [wTxNormal, wTxPreserved] false true).result =
        some (PErr.preserved 1 ([wTxNormal, wTxPreserved].getD 1 defaultPTx).tid) ∧
      ProcessResult wEng true [wTxNormal, wTxPreserved] false true =
        .error (PErr.preserved 1 ([wTxNormal, wTxPreserved].getD 1 defaultPTx).tid) := by
  have H := C5_preserved_address_rejection wEng true [wTxNormal, wTxPreserved]
    false true 1 (fun _ => rfl) (by decide)
    (by
      intro j hj
      have hj0 : j = 0 := by omega
      rw [hj0]
      decide)
    (by decide)
  exact ⟨H.1, H.2.1, H.2.2.1⟩

/-- Counterexample to C5 as stated: a block holding a transaction to the
preserved fee-recorder address behind a transaction whose sender recovery
fails is rejected with the sender-recovery error, not the preserved-address
error — the claimed "fails with the preserved error regardless of the
transactions' other content" does not hold for the block. -/
theorem C5_earlier_error_counterexample :
    (∃ t ∈ [wTxBadSender, wTxPreserved], IsPreserved t.toAddr = true) ∧
      (Process wEng true [wTxBadSender, wTxPreserved] false true).result =
        some (PErr.senderRecovery wTxBadSender.tid) ∧
      isPreservedErr
          (Process wEng true [wTxBadSender, wTxPreserved] false true).result =
        false ∧
      ProcessResult wEng true [wTxBadSender, wTxPreserved] false true =
        .error (PErr.senderRecovery wTxBadSender.tid) := by
  refine ⟨⟨wTxPreserved, by decide, by decide⟩, by decide, by decide, rfl⟩

end Nero
